import Mathlib

/-!
Verification of the crystal orientation / misorientation engine of pymicro.

The repository sources provided contain only the test suite
(`pymicro/crystal/tests/test_Microstructure.py`); the implementation module
(`pymicro/crystal/microstructure.py`) is not present.  Every operation is
therefore modelled from the natural-language specification, as recorded in
the doc comment of each definition.  Angles are measured in degrees at the
API boundary (as in the source) and in radians internally; floating point
arithmetic is idealised as real arithmetic.
-/

open Real Matrix

/-- Computational 3x3 matrix over the integers.  Crystal symmetry operators
(entries 0, 1, -1) and, up to an explicit denominator, the concrete
orientation matrices appearing in the tests are integer matrices, so this
type lets membership and trace comparisons be decided by computation. -/
structure T3 where
  m00 : ℤ
  m01 : ℤ
  m02 : ℤ
  m10 : ℤ
  m11 : ℤ
  m12 : ℤ
  m20 : ℤ
  m21 : ℤ
  m22 : ℤ
deriving DecidableEq, Repr

namespace T3

/-- Matrix product of two computational matrices. -/
def mul (A B : T3) : T3 where
  m00 := A.m00 * B.m00 + A.m01 * B.m10 + A.m02 * B.m20
  m01 := A.m00 * B.m01 + A.m01 * B.m11 + A.m02 * B.m21
  m02 := A.m00 * B.m02 + A.m01 * B.m12 + A.m02 * B.m22
  m10 := A.m10 * B.m00 + A.m11 * B.m10 + A.m12 * B.m20
  m11 := A.m10 * B.m01 + A.m11 * B.m11 + A.m12 * B.m21
  m12 := A.m10 * B.m02 + A.m11 * B.m12 + A.m12 * B.m22
  m20 := A.m20 * B.m00 + A.m21 * B.m10 + A.m22 * B.m20
  m21 := A.m20 * B.m01 + A.m21 * B.m11 + A.m22 * B.m21
  m22 := A.m20 * B.m02 + A.m21 * B.m12 + A.m22 * B.m22

/-- Transpose of a computational matrix. -/
def tr (A : T3) : T3 :=
  ⟨A.m00, A.m10, A.m20, A.m01, A.m11, A.m21, A.m02, A.m12, A.m22⟩

/-- Trace of a computational matrix. -/
def tra (A : T3) : ℤ := A.m00 + A.m11 + A.m22

/-- Identity matrix. -/
def one : T3 := ⟨1, 0, 0, 0, 1, 0, 0, 0, 1⟩

end T3

/-- Interpretation of a computational matrix as a real 3x3 matrix. -/
noncomputable def toMat (A : T3) : Matrix (Fin 3) (Fin 3) ℝ :=
  !![(A.m00 : ℝ), A.m01, A.m02; A.m10, A.m11, A.m12; A.m20, A.m21, A.m22]

theorem toMat_mul (A B : T3) : toMat (A.mul B) = toMat A * toMat B := by
  unfold toMat T3.mul
  rw [Matrix.mul_fin_three]
  push_cast
  rfl

theorem toMat_tr (A : T3) : toMat A.tr = (toMat A)ᵀ := by
  unfold toMat T3.tr
  ext i j
  fin_cases i <;> fin_cases j <;> simp

theorem toMat_one : toMat T3.one = 1 := by
  unfold toMat T3.one
  rw [Matrix.one_fin_three]
  norm_num

theorem trace_toMat (A : T3) : (toMat A).trace = (A.tra : ℝ) := by
  rw [toMat, Matrix.trace_fin_three_of, T3.tra]
  push_cast
  ring

/-- Modelled from the spec: the 24 proper rotations of the cubic crystal
class (all signed permutation matrices of determinant +1), the symmetry
operator table owned by the cubic `Symmetry` instance; the identity
operator is listed first. -/
def cubicOps : List T3 := [
  T3.mk 1 0 0 0 1 0 0 0 1,
  T3.mk 1 0 0 0 (-1) 0 0 0 (-1),
  T3.mk (-1) 0 0 0 1 0 0 0 (-1),
  T3.mk (-1) 0 0 0 (-1) 0 0 0 1,
  T3.mk 1 0 0 0 0 (-1) 0 1 0,
  T3.mk 1 0 0 0 0 1 0 (-1) 0,
  T3.mk (-1) 0 0 0 0 1 0 1 0,
  T3.mk (-1) 0 0 0 0 (-1) 0 (-1) 0,
  T3.mk 0 1 0 1 0 0 0 0 (-1),
  T3.mk 0 (-1) 0 1 0 0 0 0 1,
  T3.mk 0 1 0 (-1) 0 0 0 0 1,
  T3.mk 0 (-1) 0 (-1) 0 0 0 0 (-1),
  T3.mk 0 0 1 1 0 0 0 1 0,
  T3.mk 0 0 (-1) 1 0 0 0 (-1) 0,
  T3.mk 0 0 (-1) (-1) 0 0 0 1 0,
  T3.mk 0 0 1 (-1) 0 0 0 (-1) 0,
  T3.mk 0 1 0 0 0 1 1 0 0,
  T3.mk 0 (-1) 0 0 0 (-1) 1 0 0,
  T3.mk 0 1 0 0 0 (-1) (-1) 0 0,
  T3.mk 0 (-1) 0 0 0 1 (-1) 0 0,
  T3.mk 0 0 (-1) 0 1 0 1 0 0,
  T3.mk 0 0 1 0 (-1) 0 1 0 0,
  T3.mk 0 0 1 0 1 0 (-1) 0 0,
  T3.mk 0 0 (-1) 0 (-1) 0 (-1) 0 0]

/-- Modelled from the spec: the symmetry classes needed by the claims.  The
spec lists the full enumerable category (triclinic, monoclinic, ...,
cubic); only the two classes exercised by the claims are modelled. -/
inductive Symmetry
  | cubic
  | triclinic
deriving DecidableEq

/-- Modelled from the spec: the fixed, precomputed operator set of a
symmetry class, including the identity.  Triclinic symmetry owns only the
identity operator. -/
def Symmetry.symmetry_operators : Symmetry → List T3
  | .cubic => cubicOps
  | .triclinic => [T3.one]

set_option maxRecDepth 100000 in
theorem cubicOps_mul_mem : ∀ a ∈ cubicOps, ∀ b ∈ cubicOps, a.mul b ∈ cubicOps := by
  decide

theorem one_mem_cubicOps : T3.one ∈ cubicOps := by decide

theorem one_mem_ops (sym : Symmetry) : T3.one ∈ sym.symmetry_operators := by
  cases sym <;> decide

theorem ops_mul_mem (sym : Symmetry) :
    ∀ a ∈ sym.symmetry_operators, ∀ b ∈ sym.symmetry_operators,
      a.mul b ∈ sym.symmetry_operators := by
  cases sym
  · exact cubicOps_mul_mem
  · decide

/-- Clamp to the interval [-1, 1] (the `np.clip` applied before `acos`).
The spec: numerical noise in the `acos` argument is clamped locally. -/
noncomputable def clip (x : ℝ) : ℝ := max (-1) (min 1 x)

theorem clip_le_one (x : ℝ) : clip x ≤ 1 := by
  simp [clip]

theorem neg_one_le_clip (x : ℝ) : -1 ≤ clip x := le_max_left _ _

theorem clip_mono : Monotone clip := fun _ _ h =>
  max_le_max le_rfl (min_le_min le_rfl h)

theorem clip_of_mem {x : ℝ} (h1 : -1 ≤ x) (h2 : x ≤ 1) : clip x = x := by
  simp [clip, min_eq_right h2, max_eq_right h1]

/-- Modelled from the spec: `misorientationAngle(g1,g2)` is the angle of the
delta matrix, `acos((trace(delta) - 1)/2)`, the argument being clamped to
[-1,1] before the inverse cosine.  This is
`Orientation.misorientation_angle_from_delta`. -/
noncomputable def misorientation_angle_from_delta (delta : Matrix (Fin 3) (Fin 3) ℝ) : ℝ :=
  Real.arccos (clip ((delta.trace - 1) / 2))

/-- Comparing misorientation angles is equivalent to comparing the clamped
cosine arguments in the opposite direction, since `arccos` is strictly
antitone on [-1,1]. -/
theorem misA_le_misA_iff (d1 d2 : Matrix (Fin 3) (Fin 3) ℝ) :
    misorientation_angle_from_delta d1 ≤ misorientation_angle_from_delta d2 ↔
      clip ((d2.trace - 1) / 2) ≤ clip ((d1.trace - 1) / 2) := by
  unfold misorientation_angle_from_delta
  have hmem : ∀ x : ℝ, clip x ∈ Set.Icc (-1 : ℝ) 1 := fun x =>
    ⟨neg_one_le_clip x, clip_le_one x⟩
  constructor
  · intro h
    by_contra hlt
    push_neg at hlt
    have := Real.strictAntiOn_arccos (hmem _) (hmem _) hlt
    linarith
  · intro h
    rcases eq_or_lt_of_le h with h' | h'
    · rw [h']
    · exact (Real.strictAntiOn_arccos (hmem _) (hmem _) h').le

theorem misA_lt_misA_iff (d1 d2 : Matrix (Fin 3) (Fin 3) ℝ) :
    misorientation_angle_from_delta d1 < misorientation_angle_from_delta d2 ↔
      clip ((d2.trace - 1) / 2) < clip ((d1.trace - 1) / 2) := by
  rw [← not_le, ← not_le, not_iff_not, misA_le_misA_iff]

/-- First-minimum selection over a list, scanning left to right starting
from a default candidate; used to model the deterministic search loops of
the misorientation engine. -/
noncomputable def argminList (f : T3 → ℝ) : List T3 → T3 → T3
  | [], b => b
  | s :: l, b => argminList f l (if f s < f b then s else b)

theorem argminList_mem_or (f : T3 → ℝ) :
    ∀ (l : List T3) (b : T3), argminList f l b = b ∨ argminList f l b ∈ l := by
  intro l
  induction l with
  | nil => intro b; left; rfl
  | cons s l ih =>
    intro b
    rw [argminList]
    rcases ih (if f s < f b then s else b) with h | h
    · rw [h]
      split
      · right; exact List.mem_cons_self _ _
      · left; rfl
    · right; exact List.mem_cons_of_mem _ h

theorem argminList_le_start (f : T3 → ℝ) :
    ∀ (l : List T3) (b : T3), f (argminList f l b) ≤ f b := by
  intro l
  induction l with
  | nil => intro b; exact le_rfl
  | cons s l ih =>
    intro b
    rw [argminList]
    refine (ih _).trans ?_
    split
    · linarith [‹f s < f b›]
    · exact le_rfl

theorem argminList_le_mem (f : T3 → ℝ) :
    ∀ (l : List T3) (b : T3), ∀ x ∈ l, f (argminList f l b) ≤ f x := by
  intro l
  induction l with
  | nil => intro b x hx; cases hx
  | cons s l ih =>
    intro b x hx
    rw [argminList]
    rcases List.mem_cons.1 hx with rfl | hx
    · refine (argminList_le_start f l _).trans ?_
      split
      · exact le_rfl
      · linarith [not_lt.1 ‹¬ f x < f b›]
    · exact ih _ x hx

/-- Modelled from the spec: `moveToFundamentalZone(o, symmetry)` searches
over the symmetry operators and returns the equivalent orientation `s*g`
for the minimizing `s` (deterministically the first minimizer in the fixed
enumeration order), the one with smallest rotation angle to the reference
frame.  This is `Orientation.move_to_FZ`. -/
noncomputable def move_to_FZ (g : Matrix (Fin 3) (Fin 3) ℝ) (sym : Symmetry) :
    Matrix (Fin 3) (Fin 3) ℝ :=
  toMat (argminList (fun s => misorientation_angle_from_delta (toMat s * g))
    sym.symmetry_operators T3.one) * g

/-- Modelled from the spec: `inFundamentalZone(o, symmetry)` is true iff no
symmetry operator produces a smaller misorientation angle to the identity
than `o` itself already has, i.e. `o` is a minimal-angle representative of
its symmetry-equivalence class.  This is `Orientation.inFZ`. -/
def inFZ (g : Matrix (Fin 3) (Fin 3) ℝ) (sym : Symmetry) : Prop :=
  ∀ s ∈ sym.symmetry_operators,
    misorientation_angle_from_delta g ≤ misorientation_angle_from_delta (toMat s * g)

/-- Key idempotence lemma behind claim C2, for any modelled symmetry class:
the reduction into the fundamental zone lands in the fundamental zone.
The proof only uses that the operator set contains the identity and is
closed under multiplication. -/
theorem inFZ_move_to_FZ (g : Matrix (Fin 3) (Fin 3) ℝ) (sym : Symmetry) :
    inFZ (move_to_FZ g sym) sym := by
  intro s hs
  unfold move_to_FZ
  set f : T3 → ℝ := fun t => misorientation_angle_from_delta (toMat t * g) with hf
  set m := argminList f sym.symmetry_operators T3.one with hm
  have hmem : m ∈ sym.symmetry_operators := by
    rcases argminList_mem_or f sym.symmetry_operators T3.one with h | h
    · rw [hm, h]; exact one_mem_ops sym
    · exact h
  have hassoc : toMat s * (toMat m * g) = toMat (s.mul m) * g := by
    rw [toMat_mul, Matrix.mul_assoc]
  rw [hassoc]
  exact argminList_le_mem f sym.symmetry_operators T3.one (s.mul m)
    (ops_mul_mem sym s hs m hmem)

/-- C2: for every orientation `o`, moving `o` to the fundamental zone of
the cubic symmetry group yields an orientation that is in the fundamental
zone: `inFundamentalZone(moveToFundamentalZone(o, cubic), cubic)` holds
for all inputs `o` (stated for every real 3x3 matrix, so in particular for
every orientation matrix). -/
theorem claim_C2_move_to_FZ_inFZ (g : Matrix (Fin 3) (Fin 3) ℝ) :
    inFZ (move_to_FZ g Symmetry.cubic) Symmetry.cubic :=
  inFZ_move_to_FZ g Symmetry.cubic

/-- Degrees to radians, as `np.radians` in the source. -/
noncomputable def radians (d : ℝ) : ℝ := d * π / 180

/-- Radians to degrees, as `np.degrees` in the source. -/
noncomputable def degrees (x : ℝ) : ℝ := x * 180 / π

theorem radians_degrees (x : ℝ) : radians (degrees x) = x := by
  unfold radians degrees
  field_simp

theorem degrees_radians (d : ℝ) : degrees (radians d) = d := by
  unfold radians degrees
  field_simp

/-- Modelled from the spec: `fromEuler(phi1, Phi, phi2 in degrees)` builds
the orientation matrix `g` via the Bunge convention composition of three
elemental rotations (Z, X, Z).  This is `Orientation.from_euler` /
`Orientation.Euler2OrientationMatrix`. -/
noncomputable def from_euler (phi1 Phi phi2 : ℝ) : Matrix (Fin 3) (Fin 3) ℝ :=
  let p1 := radians phi1
  let P := radians Phi
  let p2 := radians phi2
  !![cos p1 * cos p2 - sin p1 * sin p2 * cos P,
     sin p1 * cos p2 + cos p1 * sin p2 * cos P,
     sin p2 * sin P;
     -(cos p1) * sin p2 - sin p1 * cos p2 * cos P,
     -(sin p1) * sin p2 + cos p1 * cos p2 * cos P,
     cos p2 * sin P;
     sin p1 * sin P,
     -(cos p1) * sin P,
     cos P]

theorem from_euler_zero : from_euler 0 0 0 = 1 := by
  unfold from_euler radians
  rw [Matrix.one_fin_three]
  norm_num

theorem from_euler_sixty :
    from_euler 60 0 0 = !![1/2, √3/2, 0; -(√3/2), 1/2, 0; 0, 0, 1] := by
  have h : radians 60 = π / 3 := by unfold radians; ring
  have h0 : radians 0 = 0 := by unfold radians; ring
  simp only [from_euler, h, h0, Real.cos_pi_div_three, Real.sin_pi_div_three,
    Real.cos_zero, Real.sin_zero]
  norm_num

/-- List of the delta matrices `(s1*g1)*(s2*g2)ᵀ` over all pairs of
symmetry operators, in the deterministic enumeration order of the
disorientation search loop. -/
noncomputable def deltasOf (g1 g2 : Matrix (Fin 3) (Fin 3) ℝ) (sym : Symmetry) :
    List (Matrix (Fin 3) (Fin 3) ℝ) :=
  (List.product sym.symmetry_operators sym.symmetry_operators).map
    fun p => (toMat p.1 * g1) * (toMat p.2 * g2)ᵀ

/-- Minimum of a list of reals, via a left fold starting from the head
(0 for the empty list, which never occurs: operator sets are nonempty). -/
noncomputable def listMin : List ℝ → ℝ
  | [] => 0
  | x :: l => l.foldl min x

theorem foldl_min_le_init : ∀ (l : List ℝ) (a : ℝ), l.foldl min a ≤ a := by
  intro l
  induction l with
  | nil => intro a; exact le_rfl
  | cons x l ih =>
    intro a
    rw [List.foldl_cons]
    exact (ih _).trans (min_le_left _ _)

theorem foldl_min_le_mem : ∀ (l : List ℝ) (a : ℝ), ∀ x ∈ l, l.foldl min a ≤ x := by
  intro l
  induction l with
  | nil => intro a x hx; cases hx
  | cons y l ih =>
    intro a x hx
    rw [List.foldl_cons]
    rcases List.mem_cons.1 hx with rfl | hx
    · exact (foldl_min_le_init _ _).trans (min_le_right _ _)
    · exact ih _ x hx

theorem foldl_min_mem : ∀ (l : List ℝ) (a : ℝ), l.foldl min a = a ∨ l.foldl min a ∈ l := by
  intro l
  induction l with
  | nil => intro a; left; rfl
  | cons y l ih =>
    intro a
    rw [List.foldl_cons]
    rcases ih (min a y) with h | h
    · rw [h]
      rcases le_total a y with hay | hay
      · left; exact min_eq_left hay
      · right; rw [min_eq_right hay]; exact List.mem_cons_self _ _
    · right; exact List.mem_cons_of_mem _ h

theorem listMin_le_mem (l : List ℝ) (x : ℝ) (hx : x ∈ l) : listMin l ≤ x := by
  cases l with
  | nil => cases hx
  | cons y l =>
    rw [listMin]
    rcases List.mem_cons.1 hx with rfl | hx
    · exact foldl_min_le_init _ _
    · exact foldl_min_le_mem _ _ x hx

theorem listMin_mem (l : List ℝ) (h : l ≠ []) : listMin l ∈ l := by
  cases l with
  | nil => exact absurd rfl h
  | cons y l =>
    rw [listMin]
    rcases foldl_min_mem l y with h' | h'
    · rw [h']; exact List.mem_cons_self _ _
    · exact List.mem_cons_of_mem _ h'

/-- First-minimum selection over a list of delta matrices by misorientation
angle. -/
noncomputable def selectMinDelta : List (Matrix (Fin 3) (Fin 3) ℝ) →
    Matrix (Fin 3) (Fin 3) ℝ → Matrix (Fin 3) (Fin 3) ℝ
  | [], b => b
  | d :: l, b =>
      selectMinDelta l
        (if misorientation_angle_from_delta d < misorientation_angle_from_delta b then d else b)

theorem selectMinDelta_angle : ∀ (l : List (Matrix (Fin 3) (Fin 3) ℝ)) (b : Matrix (Fin 3) (Fin 3) ℝ),
    misorientation_angle_from_delta (selectMinDelta l b) =
      (l.map misorientation_angle_from_delta).foldl min (misorientation_angle_from_delta b) := by
  intro l
  induction l with
  | nil => intro b; rfl
  | cons d l ih =>
    intro b
    rw [selectMinDelta, List.map_cons, List.foldl_cons, ih]
    congr 1
    split <;> rename_i h
    · rw [min_eq_right h.le]
    · rw [min_eq_left (not_lt.1 h)]

theorem selectMinDelta_mem_or : ∀ (l : List (Matrix (Fin 3) (Fin 3) ℝ)) (b : Matrix (Fin 3) (Fin 3) ℝ),
    selectMinDelta l b = b ∨ selectMinDelta l b ∈ l := by
  intro l
  induction l with
  | nil => intro b; left; rfl
  | cons d l ih =>
    intro b
    rw [selectMinDelta]
    rcases ih (if misorientation_angle_from_delta d < misorientation_angle_from_delta b then d else b) with h | h
    · rw [h]
      split
      · right; exact List.mem_cons_self _ _
      · left; rfl
    · right; exact List.mem_cons_of_mem _ h

/-- Modelled from the spec: `disorientation(o1, o2, symmetry)` searches all
pairs `(s1, s2)` of symmetry operators, computes the misorientation angle
of `s1*g1*(s2*g2)ᵀ`, and keeps the minimum angle found; the rotation axis
it reports (in crystal and in sample coordinates) is derived from the
delta matrix achieving the minimum, so the model returns that delta matrix
together with the minimal angle.  This is `Orientation.disorientation`. -/
noncomputable def disorientation (g1 g2 : Matrix (Fin 3) (Fin 3) ℝ) (sym : Symmetry) :
    ℝ × Matrix (Fin 3) (Fin 3) ℝ :=
  (listMin ((deltasOf g1 g2 sym).map misorientation_angle_from_delta),
   selectMinDelta (deltasOf g1 g2 sym).tail ((deltasOf g1 g2 sym).headD 1))

/-- Decidable test for `a + b*sqrt 3 <= 0` with `a b : ℤ`. -/
def sqrt3le (a b : ℤ) : Bool :=
  if 0 < b then decide (a ≤ 0) && decide (3 * b ^ 2 ≤ a ^ 2)
  else decide (a ≤ 0) || decide (a ^ 2 ≤ 3 * b ^ 2)

theorem sqrt3le_sound {a b : ℤ} (h : sqrt3le a b = true) : (a : ℝ) + b * √3 ≤ 0 := by
  have h3 : (√3) ^ 2 = 3 := Real.sq_sqrt (by norm_num)
  have h3' : (0 : ℝ) ≤ √3 := Real.sqrt_nonneg 3
  unfold sqrt3le at h
  split at h
  · rename_i hb
    rw [Bool.and_eq_true, decide_eq_true_eq, decide_eq_true_eq] at h
    obtain ⟨ha, hsq⟩ := h
    have hb' : (0 : ℝ) < b := by exact_mod_cast hb
    have ha' : (a : ℝ) ≤ 0 := by exact_mod_cast ha
    have hsq' : 3 * (b : ℝ) ^ 2 ≤ (a : ℝ) ^ 2 := by exact_mod_cast hsq
    nlinarith
  · rename_i hb
    rw [Bool.or_eq_true, decide_eq_true_eq, decide_eq_true_eq] at h
    have hb' : (b : ℝ) ≤ 0 := by exact_mod_cast not_lt.1 hb
    rcases h with ha | hsq
    · have ha' : (a : ℝ) ≤ 0 := by exact_mod_cast ha
      nlinarith
    · have hsq' : (a : ℝ) ^ 2 ≤ 3 * (b : ℝ) ^ 2 := by exact_mod_cast hsq
      have key : ((a : ℝ) + b * √3) * ((a : ℝ) - b * √3) ≤ 0 := by nlinarith
      by_contra hpos
      push_neg at hpos
      have h1 : (a : ℝ) - b * √3 ≤ 0 := by
        by_contra h2
        push_neg at h2
        nlinarith
      have h2 : (b : ℝ) * √3 ≤ 0 := mul_nonpos_of_nonpos_of_nonneg hb' h3'
      linarith

/-- Trace of `M * g60ᵀ` for a computational matrix `M`, where `g60` is the
orientation matrix of Euler angles (60, 0, 0). -/
theorem trace_toMat_mul_g60_tr (M : T3) :
    (toMat M * (from_euler 60 0 0)ᵀ).trace =
      ((M.m00 + M.m11 : ℤ) : ℝ) / 2 + ((M.m01 - M.m10 : ℤ) : ℝ) * (√3 / 2) +
        ((M.m22 : ℤ) : ℝ) := by
  rw [from_euler_sixty]
  have ht : (!![1/2, √3/2, 0; -(√3/2), 1/2, 0; 0, 0, 1] : Matrix (Fin 3) (Fin 3) ℝ)ᵀ =
      !![1/2, -(√3/2), 0; √3/2, 1/2, 0; 0, 0, 1] := by
    ext i j
    fin_cases i <;> fin_cases j <;> simp
  rw [ht, toMat, Matrix.mul_fin_three, Matrix.trace_fin_three_of]
  push_cast
  ring

/-- Cyclic reduction of the trace of a pair delta with `g1 = 1` to the
single-operator form. -/
theorem trace_pair_delta (s1 s2 : T3) (g : Matrix (Fin 3) (Fin 3) ℝ) :
    ((toMat s1 * 1) * (toMat s2 * g)ᵀ).trace =
      (toMat ((s2.tr).mul s1) * gᵀ).trace := by
  rw [mul_one, Matrix.transpose_mul, ← mul_assoc, Matrix.trace_mul_cycle,
    toMat_mul, toMat_tr]

/-- Per-pair decidable certificate that the pair delta trace is at most
`1 + sqrt 3`. -/
def pairBound (s1 s2 : T3) : Bool :=
  sqrt3le (((s2.tr).mul s1).m00 + ((s2.tr).mul s1).m11 + 2 * ((s2.tr).mul s1).m22 - 2)
    (((s2.tr).mul s1).m01 - ((s2.tr).mul s1).m10 - 2)

set_option maxRecDepth 100000 in
theorem cubic_pairBound : ∀ p ∈ List.product cubicOps cubicOps, pairBound p.1 p.2 = true := by
  decide

theorem trace_le_of_pairBound {s1 s2 : T3} (h : pairBound s1 s2 = true) :
    ((toMat s1 * 1) * (toMat s2 * from_euler 60 0 0)ᵀ).trace ≤ 1 + √3 := by
  rw [trace_pair_delta, trace_toMat_mul_g60_tr]
  have hs := sqrt3le_sound h
  push_cast at hs ⊢
  linarith

theorem sqrt3_le_two : √3 ≤ 2 := by
  nlinarith [Real.sq_sqrt (show (0:ℝ) ≤ 3 by norm_num), Real.sqrt_nonneg 3]

theorem arccos_sqrt3_div_two : Real.arccos (√3 / 2) = π / 6 := by
  rw [← Real.cos_pi_div_six]
  exact Real.arccos_cos (by positivity) (by linarith [Real.pi_pos])

theorem pi_div_six_le_misA_of_trace_le {d : Matrix (Fin 3) (Fin 3) ℝ}
    (h : d.trace ≤ 1 + √3) : π / 6 ≤ misorientation_angle_from_delta d := by
  unfold misorientation_angle_from_delta
  rw [← arccos_sqrt3_div_two]
  have hnn : (0 : ℝ) ≤ √3 := Real.sqrt_nonneg 3
  have h2 : (d.trace - 1) / 2 ≤ √3 / 2 := by linarith
  have h1 : clip ((d.trace - 1) / 2) ≤ √3 / 2 := by
    unfold clip
    exact max_le (by linarith) (le_trans (min_le_right _ _) h2)
  have hs : StrictAntiOn Real.arccos (Set.Icc (-1) 1) := Real.strictAntiOn_arccos
  rcases eq_or_lt_of_le h1 with h' | h'
  · rw [h']
  · have := hs ⟨neg_one_le_clip _, clip_le_one _⟩
      ⟨by linarith, by linarith [sqrt3_le_two]⟩ h'
    linarith

theorem mem_deltasOf {sym : Symmetry} {p : T3 × T3}
    (hp : p ∈ List.product sym.symmetry_operators sym.symmetry_operators)
    (g1 g2 : Matrix (Fin 3) (Fin 3) ℝ) :
    (toMat p.1 * g1) * (toMat p.2 * g2)ᵀ ∈ deltasOf g1 g2 sym :=
  List.mem_map_of_mem _ hp

/-- General minimum property of the disorientation search: the returned
angle is the misorientation angle of the returned delta matrix, which is
one of the enumerated pair deltas, and it is a lower bound of all the pair
angles. -/
theorem disorientation_min (g1 g2 : Matrix (Fin 3) (Fin 3) ℝ) (sym : Symmetry) :
    (∃ d ∈ deltasOf g1 g2 sym,
        disorientation g1 g2 sym = (misorientation_angle_from_delta d, d)) ∧
      ∀ d ∈ deltasOf g1 g2 sym,
        (disorientation g1 g2 sym).1 ≤ misorientation_angle_from_delta d := by
  constructor
  · have hne : deltasOf g1 g2 sym ≠ [] :=
      List.ne_nil_of_mem (mem_deltasOf
        (List.pair_mem_product.2 ⟨one_mem_ops sym, one_mem_ops sym⟩) g1 g2)
    rcases hd : deltasOf g1 g2 sym with _ | ⟨d, l⟩
    · exact absurd hd hne
    · refine ⟨selectMinDelta l d, ?_, ?_⟩
      · rcases selectMinDelta_mem_or l d with h | h
        · rw [h]; exact List.mem_cons_self _ _
        · exact List.mem_cons_of_mem _ h
      · unfold disorientation
        rw [hd]
        simp only [List.tail_cons, List.headD_cons]
        rw [selectMinDelta_angle, List.map_cons, listMin]
  · intro d hdmem
    exact listMin_le_mem _ _ (List.mem_map_of_mem _ hdmem)

/-- Concrete triclinic disorientation: Euler (0,0,0) against Euler
(60,0,0) under identity-only symmetry gives 60 degrees. -/
theorem disorientation_triclinic_sixty :
    (disorientation (from_euler 0 0 0) (from_euler 60 0 0) Symmetry.triclinic).1 =
      radians 60 := by
  have hprod : List.product (Symmetry.triclinic.symmetry_operators)
      (Symmetry.triclinic.symmetry_operators) = [(T3.one, T3.one)] := rfl
  have hds : deltasOf (from_euler 0 0 0) (from_euler 60 0 0) Symmetry.triclinic =
      [(from_euler 60 0 0)ᵀ] := by
    unfold deltasOf
    rw [hprod, List.map_singleton, from_euler_zero, toMat_one, mul_one, one_mul, one_mul]
  have htr : (from_euler 60 0 0)ᵀ.trace = 2 := by
    rw [Matrix.trace_transpose, from_euler_sixty, Matrix.trace_fin_three_of]
    norm_num
  have hmis : misorientation_angle_from_delta (from_euler 60 0 0)ᵀ = π / 3 := by
    unfold misorientation_angle_from_delta
    rw [htr]
    norm_num
    rw [clip_of_mem (by norm_num) (by norm_num), ← Real.cos_pi_div_three]
    exact Real.arccos_cos (by positivity) (by linarith [Real.pi_pos])
  unfold disorientation
  rw [hds, List.map_singleton, hmis]
  show π / 3 = radians 60
  unfold radians
  ring

/-- The operator pair achieving the cubic minimum for the 60 degree
rotation about Z: identity and the rotation mapping the 60 degree
equivalent to a 30 degree one. -/
def opN : T3 := ⟨0, -1, 0, 1, 0, 0, 0, 0, 1⟩

theorem misA_opN_pair :
    misorientation_angle_from_delta
      ((toMat T3.one * 1) * (toMat opN * from_euler 60 0 0)ᵀ) = π / 6 := by
  have hM : (opN.tr).mul T3.one = ⟨0, 1, 0, -1, 0, 0, 0, 0, 1⟩ := by decide
  have htr : ((toMat T3.one * 1) * (toMat opN * from_euler 60 0 0)ᵀ).trace = √3 + 1 := by
    rw [trace_pair_delta, trace_toMat_mul_g60_tr, hM]
    push_cast
    ring
  unfold misorientation_angle_from_delta
  rw [htr]
  have harg : (√3 + 1 - 1) / 2 = √3 / 2 := by ring
  rw [harg, clip_of_mem (by linarith [Real.sqrt_nonneg 3]) (by linarith [sqrt3_le_two]),
    arccos_sqrt3_div_two]

set_option maxRecDepth 40000 in
/-- Concrete cubic disorientation: Euler (0,0,0) against Euler (60,0,0)
under cubic symmetry gives 30 degrees. -/
theorem disorientation_cubic_thirty :
    (disorientation (from_euler 0 0 0) (from_euler 60 0 0) Symmetry.cubic).1 =
      radians 30 := by
  have hpair : (T3.one, opN) ∈ List.product (Symmetry.cubic.symmetry_operators)
      (Symmetry.cubic.symmetry_operators) := by decide
  have hmem : π / 6 ∈ (deltasOf (from_euler 0 0 0) (from_euler 60 0 0)
      Symmetry.cubic).map misorientation_angle_from_delta := by
    have h1 := mem_deltasOf hpair (from_euler 0 0 0) (from_euler 60 0 0)
    rw [from_euler_zero] at h1
    have h2 := List.mem_map_of_mem misorientation_angle_from_delta h1
    rwa [misA_opN_pair, ← from_euler_zero] at h2
  have hlb : ∀ x ∈ (deltasOf (from_euler 0 0 0) (from_euler 60 0 0)
      Symmetry.cubic).map misorientation_angle_from_delta, π / 6 ≤ x := by
    intro x hx
    rcases List.mem_map.1 hx with ⟨d, hd, rfl⟩
    rcases List.mem_map.1 hd with ⟨p, hp, rfl⟩
    apply pi_div_six_le_misA_of_trace_le
    rw [from_euler_zero]
    exact trace_le_of_pairBound (cubic_pairBound p hp)
  have hmin : listMin ((deltasOf (from_euler 0 0 0) (from_euler 60 0 0)
      Symmetry.cubic).map misorientation_angle_from_delta) = π / 6 := by
    refine le_antisymm (listMin_le_mem _ _ hmem) ?_
    exact hlb _ (listMin_mem _ (List.ne_nil_of_mem hmem))
  have hfst : (disorientation (from_euler 0 0 0) (from_euler 60 0 0) Symmetry.cubic).1 =
      listMin ((deltasOf (from_euler 0 0 0) (from_euler 60 0 0) Symmetry.cubic).map
        misorientation_angle_from_delta) := rfl
  rw [hfst, hmin]
  unfold radians
  ring

/-- C1: `disorientation(o1, o2, symmetry)` returns the minimum
misorientation angle over all pairs `(s1, s2)` of symmetry operators
(identity included) applied as `s1*g1*(s2*g2)ᵀ`, the axis data being
derived from the delta matrix achieving that minimum (returned by the
model); in particular for `o1` = Euler (0,0,0) and `o2` = Euler (60,0,0)
it returns an angle of 60 degrees under triclinic symmetry and 30 degrees
under cubic symmetry. -/
theorem claim_C1_disorientation :
    (∀ (g1 g2 : Matrix (Fin 3) (Fin 3) ℝ) (sym : Symmetry),
        (∃ d ∈ deltasOf g1 g2 sym,
            disorientation g1 g2 sym = (misorientation_angle_from_delta d, d)) ∧
        ∀ d ∈ deltasOf g1 g2 sym,
          (disorientation g1 g2 sym).1 ≤ misorientation_angle_from_delta d) ∧
    (disorientation (from_euler 0 0 0) (from_euler 60 0 0) Symmetry.triclinic).1 =
      radians 60 ∧
    (disorientation (from_euler 0 0 0) (from_euler 60 0 0) Symmetry.cubic).1 =
      radians 30 :=
  ⟨disorientation_min, disorientation_triclinic_sixty, disorientation_cubic_thirty⟩

/-- Witness for C1 at a concrete input: the lower-bound part applied to
the identity pair delta of the triclinic search at `g1 = g2 = 1`. -/
theorem claim_C1_disorientation_witness :
    (disorientation 1 1 Symmetry.triclinic).1 ≤
      misorientation_angle_from_delta ((toMat T3.one * 1) * (toMat T3.one * 1)ᵀ) :=
  (claim_C1_disorientation.1 1 1 Symmetry.triclinic).2 _
    (mem_deltasOf (List.pair_mem_product.2
      ⟨one_mem_ops Symmetry.triclinic, one_mem_ops Symmetry.triclinic⟩) 1 1)

/-- Unit vector in the direction of `v` (`v / np.linalg.norm(v)`). -/
noncomputable def unitV (v : Fin 3 → ℝ) : Fin 3 → ℝ :=
  fun i => v i / √(v 0 ^ 2 + v 1 ^ 2 + v 2 ^ 2)

/-- The default loading direction: the sample Z axis. -/
noncomputable def eZ : Fin 3 → ℝ := ![0, 0, 1]

/-- Modelled from the spec: `schmidFactor(orientation, slipSystem,
loadDirection=Z)` is `cos(phi) * cos(lambda)`, computed as the product of
the dot products of the loading direction with the unit slip-plane normal
and the unit slip direction, both expressed in the sample frame via the
orientation matrix.  This is `Orientation.schmid_factor`. -/
noncomputable def schmid_factor (g : Matrix (Fin 3) (Fin 3) ℝ) (n d : Fin 3 → ℝ) : ℝ :=
  (gᵀ.mulVec (unitV n) ⬝ᵥ eZ) * (gᵀ.mulVec (unitV d) ⬝ᵥ eZ)

/-- Modelled from the spec: `computeAllSchmidFactors(orientation,
slipSystems)` maps the Schmid factor computation over a sequence of slip
systems.  This is `Orientation.compute_all_schmid_factors`. -/
noncomputable def compute_all_schmid_factors (g : Matrix (Fin 3) (Fin 3) ℝ)
    (systems : List ((Fin 3 → ℝ) × (Fin 3 → ℝ))) : List ℝ :=
  systems.map fun s => schmid_factor g s.1 s.2

/-- Modelled from the spec: the twelve octahedral slip systems of the
cubic `111 110` family (`SlipSystem.get_slip_systems(plane_type='111')`),
each a (plane, in-plane direction) pair in the Schmid-Boas sign
convention. -/
noncomputable def slipSystems111 : List ((Fin 3 → ℝ) × (Fin 3 → ℝ)) := [
  (![1, 1, 1], ![-1, 0, 1]), (![1, 1, 1], ![0, -1, 1]), (![1, 1, 1], ![-1, 1, 0]),
  (![1, -1, 1], ![-1, 0, 1]), (![1, -1, 1], ![0, 1, 1]), (![1, -1, 1], ![1, 1, 0]),
  (![-1, 1, 1], ![0, -1, 1]), (![-1, 1, 1], ![1, 0, 1]), (![-1, 1, 1], ![1, 1, 0]),
  (![1, 1, -1], ![0, 1, 1]), (![1, 1, -1], ![1, 0, 1]), (![1, 1, -1], ![-1, 1, 0])]

/-- Maximum of a list of reals, via a left fold starting from the head. -/
noncomputable def listMax : List ℝ → ℝ
  | [] => 0
  | x :: l => l.foldl max x

theorem init_le_foldl_max : ∀ (l : List ℝ) (a : ℝ), a ≤ l.foldl max a := by
  intro l
  induction l with
  | nil => intro a; exact le_rfl
  | cons x l ih =>
    intro a
    rw [List.foldl_cons]
    exact (le_max_left _ _).trans (ih _)

theorem mem_le_foldl_max : ∀ (l : List ℝ) (a : ℝ), ∀ x ∈ l, x ≤ l.foldl max a := by
  intro l
  induction l with
  | nil => intro a x hx; cases hx
  | cons y l ih =>
    intro a x hx
    rw [List.foldl_cons]
    rcases List.mem_cons.1 hx with rfl | hx
    · exact (le_max_right _ _).trans (init_le_foldl_max _ _)
    · exact ih _ x hx

theorem foldl_max_mem : ∀ (l : List ℝ) (a : ℝ), l.foldl max a = a ∨ l.foldl max a ∈ l := by
  intro l
  induction l with
  | nil => intro a; left; rfl
  | cons y l ih =>
    intro a
    rw [List.foldl_cons]
    rcases ih (max a y) with h | h
    · rw [h]
      rcases le_total a y with hay | hay
      · right; rw [max_eq_right hay]; exact List.mem_cons_self _ _
      · left; exact max_eq_left hay
    · right; exact List.mem_cons_of_mem _ h

theorem mem_le_listMax (l : List ℝ) (x : ℝ) (hx : x ∈ l) : x ≤ listMax l := by
  cases l with
  | nil => cases hx
  | cons y l =>
    rw [listMax]
    rcases List.mem_cons.1 hx with rfl | hx
    · exact init_le_foldl_max _ _
    · exact mem_le_foldl_max _ _ x hx

theorem listMax_mem (l : List ℝ) (h : l ≠ []) : listMax l ∈ l := by
  cases l with
  | nil => exact absurd rfl h
  | cons y l =>
    rw [listMax]
    rcases foldl_max_mem l y with h' | h'
    · rw [h']; exact List.mem_cons_self _ _
    · exact List.mem_cons_of_mem _ h'

/-- View of a plain triple of reals as a point of the euclidean space
used by Mathlib's angle. -/
noncomputable def toE (v : Fin 3 → ℝ) : EuclideanSpace ℝ (Fin 3) :=
  (WithLp.equiv 2 (Fin 3 → ℝ)).symm v

/-- Angle between two sample-frame vectors. -/
noncomputable def sampleAngle (u v : Fin 3 → ℝ) : ℝ :=
  InnerProductGeometry.angle (toE u) (toE v)

theorem norm_toE (v : Fin 3 → ℝ) : ‖toE v‖ = √(v 0 ^ 2 + v 1 ^ 2 + v 2 ^ 2) := by
  rw [toE, EuclideanSpace.norm_eq]
  congr 1
  rw [Fin.sum_univ_three]
  simp [sq_abs]

open scoped RealInnerProductSpace in
theorem inner_toE (u v : Fin 3 → ℝ) : ⟪toE u, toE v⟫ = u ⬝ᵥ v := by
  rw [toE, toE, PiLp.inner_apply, Matrix.dotProduct, Fin.sum_univ_three, Fin.sum_univ_three]
  simp [RCLike.inner_apply, conj_trivial]

theorem dot_self_toMulVec {g : Matrix (Fin 3) (Fin 3) ℝ} (hg : g * gᵀ = 1)
    (v : Fin 3 → ℝ) : gᵀ.mulVec v ⬝ᵥ gᵀ.mulVec v = v ⬝ᵥ v := by
  rw [Matrix.dotProduct_mulVec, Matrix.vecMul_transpose, Matrix.mulVec_mulVec, hg,
    Matrix.one_mulVec]

theorem unitV_dot_self {v : Fin 3 → ℝ} (h : 0 < v 0 ^ 2 + v 1 ^ 2 + v 2 ^ 2) :
    unitV v ⬝ᵥ unitV v = 1 := by
  have hs : √(v 0 ^ 2 + v 1 ^ 2 + v 2 ^ 2) ^ 2 = v 0 ^ 2 + v 1 ^ 2 + v 2 ^ 2 :=
    Real.sq_sqrt h.le
  have hs' : √(v 0 ^ 2 + v 1 ^ 2 + v 2 ^ 2) ≠ 0 := by
    intro h0
    rw [h0] at hs
    simp at hs
    linarith
  unfold unitV Matrix.dotProduct
  rw [Fin.sum_univ_three]
  field_simp
  linarith [hs]

theorem norm_toE_eq_one {w : Fin 3 → ℝ} (h : w ⬝ᵥ w = 1) : ‖toE w‖ = 1 := by
  rw [norm_toE]
  have : w 0 ^ 2 + w 1 ^ 2 + w 2 ^ 2 = 1 := by
    rw [← h]
    unfold Matrix.dotProduct
    rw [Fin.sum_univ_three]
    ring
  rw [this, Real.sqrt_one]

theorem norm_toE_eZ : ‖toE eZ‖ = 1 := by
  apply norm_toE_eq_one
  unfold eZ Matrix.dotProduct
  rw [Fin.sum_univ_three]
  norm_num

theorem cos_sampleAngle_eZ {w : Fin 3 → ℝ} (hw : ‖toE w‖ = 1) :
    Real.cos (sampleAngle eZ w) = w ⬝ᵥ eZ := by
  rw [sampleAngle, InnerProductGeometry.cos_angle, norm_toE_eZ, hw, inner_toE,
    Matrix.dotProduct_comm]
  norm_num

/-- The Schmid factor is the product of the cosines of the two angles
between the loading direction and the sample-frame plane normal and slip
direction, for any orientation matrix (orthogonality) and nondegenerate
plane and direction. -/
theorem schmid_factor_eq_cos_cos {g : Matrix (Fin 3) (Fin 3) ℝ}
    (hg : g * gᵀ = 1) {n d : Fin 3 → ℝ} (hn : 0 < n 0 ^ 2 + n 1 ^ 2 + n 2 ^ 2)
    (hd : 0 < d 0 ^ 2 + d 1 ^ 2 + d 2 ^ 2) :
    schmid_factor g n d =
      Real.cos (sampleAngle eZ (gᵀ.mulVec (unitV n))) *
        Real.cos (sampleAngle eZ (gᵀ.mulVec (unitV d))) := by
  rw [cos_sampleAngle_eZ (norm_toE_eq_one (by rw [dot_self_toMulVec hg, unitV_dot_self hn])),
    cos_sampleAngle_eZ (norm_toE_eq_one (by rw [dot_self_toMulVec hg, unitV_dot_self hd]))]
  rfl

theorem schmid_eval (a b c d e f : ℝ) :
    schmid_factor 1 ![a, b, c] ![d, e, f] =
      c / √(a ^ 2 + b ^ 2 + c ^ 2) * (f / √(d ^ 2 + e ^ 2 + f ^ 2)) := by
  unfold schmid_factor unitV eZ
  rw [Matrix.transpose_one, Matrix.one_mulVec, Matrix.one_mulVec]
  unfold Matrix.dotProduct
  rw [Fin.sum_univ_three, Fin.sum_univ_three]
  simp

theorem sqrt3_mul_sqrt2 : √3 * √2 = √6 := by
  rw [← Real.sqrt_mul (by norm_num : (0:ℝ) ≤ 3)]
  norm_num

theorem inv_sqrt3_mul_inv_sqrt2 : 1 / √3 * (1 / √2) = √6 / 6 := by
  have h6 : √6 * √6 = 6 := Real.mul_self_sqrt (by norm_num)
  have h6p : (0:ℝ) < √6 := Real.sqrt_pos.2 (by norm_num)
  rw [div_mul_div_comm, one_mul, sqrt3_mul_sqrt2,
    div_eq_div_iff h6p.ne' (by norm_num : (6:ℝ) ≠ 0)]
  linarith

theorem max_schmid_identity :
    listMax (compute_all_schmid_factors (from_euler 0 0 0) slipSystems111) = √6 / 6 := by
  have h6p : (0:ℝ) < √6 := Real.sqrt_pos.2 (by norm_num)
  have hv2 : (√3)⁻¹ * (√2)⁻¹ = √6 / 6 := by
    rw [← one_div, ← one_div]
    exact inv_sqrt3_mul_inv_sqrt2
  have hneg : -1 / √3 * (√2)⁻¹ = -(√6 / 6) := by
    rw [neg_div, neg_mul, one_div, hv2]
  have hfirst : schmid_factor (from_euler 0 0 0) ![(1:ℝ), 1, 1] ![(-1:ℝ), 0, 1] = √6 / 6 := by
    rw [from_euler_zero, schmid_eval]
    norm_num [hv2]
  have hmem : √6 / 6 ∈ compute_all_schmid_factors (from_euler 0 0 0) slipSystems111 := by
    unfold compute_all_schmid_factors slipSystems111
    rw [List.map_cons]
    rw [show schmid_factor (from_euler 0 0 0) ![(1:ℝ), 1, 1] ![(-1:ℝ), 0, 1] = √6/6 from hfirst]
    exact List.mem_cons_self _ _
  have hub : ∀ x ∈ compute_all_schmid_factors (from_euler 0 0 0) slipSystems111,
      x ≤ √6 / 6 := by
    intro x hx
    unfold compute_all_schmid_factors slipSystems111 at hx
    simp only [List.map_cons, List.map_nil, List.mem_cons, List.not_mem_nil, or_false] at hx
    rcases hx with rfl | rfl | rfl | rfl | rfl | rfl | rfl | rfl | rfl | rfl | rfl | rfl <;>
      · rw [from_euler_zero, schmid_eval]
        norm_num [hv2, hneg]
        try linarith
  exact le_antisymm (hub _ (listMax_mem _ (List.ne_nil_of_mem hmem)))
    (mem_le_listMax _ _ hmem)

theorem sqrt6_div_six_near : |√6 / 6 - 0.4082| < 0.00005 := by
  have h6 : √6 ^ 2 = 6 := Real.sq_sqrt (by norm_num)
  have hnn : (0:ℝ) ≤ √6 := Real.sqrt_nonneg 6
  rw [abs_lt]
  constructor <;> nlinarith

/-- C6: the Schmid factor equals `cos(phi) * cos(lambda)` for the angles
between the loading direction (sample Z) and the sample-frame plane
normal and slip direction, and at the identity orientation the maximum
over the cubic 111/110 slip-system family is approximately 0.4082 (4
decimal places). -/
theorem claim_C6_schmid_factor :
    (∀ (g : Matrix (Fin 3) (Fin 3) ℝ) (n d : Fin 3 → ℝ), g * gᵀ = 1 →
        0 < n 0 ^ 2 + n 1 ^ 2 + n 2 ^ 2 → 0 < d 0 ^ 2 + d 1 ^ 2 + d 2 ^ 2 →
        schmid_factor g n d =
          Real.cos (sampleAngle eZ (gᵀ.mulVec (unitV n))) *
            Real.cos (sampleAngle eZ (gᵀ.mulVec (unitV d)))) ∧
    |listMax (compute_all_schmid_factors (from_euler 0 0 0) slipSystems111) - 0.4082| <
      0.00005 := by
  constructor
  · intro g n d hg hn hd
    exact schmid_factor_eq_cos_cos hg hn hd
  · rw [max_schmid_identity]
    exact sqrt6_div_six_near

/-- Witness for C6 at a concrete input: the cosine form evaluated at the
identity orientation and the first octahedral slip system. -/
theorem claim_C6_schmid_factor_witness :
    schmid_factor 1 ![(1:ℝ), 1, 1] ![(-1:ℝ), 0, 1] =
      Real.cos (sampleAngle eZ ((1 : Matrix (Fin 3) (Fin 3) ℝ)ᵀ.mulVec (unitV ![(1:ℝ), 1, 1]))) *
        Real.cos (sampleAngle eZ ((1 : Matrix (Fin 3) (Fin 3) ℝ)ᵀ.mulVec (unitV ![(-1:ℝ), 0, 1]))) :=
  claim_C6_schmid_factor.1 1 ![(1:ℝ), 1, 1] ![(-1:ℝ), 0, 1]
    (by rw [Matrix.transpose_one, mul_one]) (by norm_num) (by norm_num)

/-- Two-argument arctangent `atan2(y, x)` (as `math.atan2` / `np.arctan2`),
modelled by the complex argument of `x + y*i`, which returns the angle of
the point `(x, y)` in `(-pi, pi]`. -/
noncomputable def atan2 (y x : ℝ) : ℝ := Complex.arg ⟨x, y⟩

theorem atan2_sin_cos {θ : ℝ} (h1 : -π < θ) (h2 : θ ≤ π) :
    atan2 (Real.sin θ) (Real.cos θ) = θ := by
  rw [atan2, Complex.mk_eq_add_mul_I, Complex.ofReal_cos, Complex.ofReal_sin]
  exact Complex.arg_cos_add_sin_mul_I ⟨h1, h2⟩

/-- Reduction of an angle into [0, 360) degrees (`% 360` on degrees). -/
noncomputable def mod360 (x : ℝ) : ℝ := x - 360 * ⌊x / 360⌋

theorem mod360_of_range {x : ℝ} (h1 : 0 ≤ x) (h2 : x < 360) : mod360 x = x := by
  unfold mod360
  have : ⌊x / 360⌋ = 0 := by
    rw [Int.floor_eq_zero_iff, Set.mem_Ico]
    constructor
    · positivity
    · linarith
  rw [this]
  norm_num

theorem mod360_of_neg_range {x : ℝ} (h1 : -360 ≤ x) (h2 : x < 0) : mod360 x = x + 360 := by
  unfold mod360
  have : ⌊x / 360⌋ = -1 := by
    rw [Int.floor_eq_iff]
    constructor <;> push_cast <;> linarith
  rw [this]
  push_cast
  ring

theorem mod360_nonneg (x : ℝ) : 0 ≤ mod360 x := by
  unfold mod360
  have := Int.floor_le (x / 360)
  nlinarith

theorem mod360_lt (x : ℝ) : mod360 x < 360 := by
  unfold mod360
  have := Int.lt_floor_add_one (x / 360)
  nlinarith

/-- Recovery of a degree value in [0, 360) from the two-argument
arctangent of its sine and cosine. -/
theorem mod360_degrees_atan2 {x : ℝ} (h1 : 0 ≤ x) (h2 : x < 360) :
    mod360 (degrees (atan2 (Real.sin (radians x)) (Real.cos (radians x)))) = x := by
  have hpi : (0:ℝ) < π := Real.pi_pos
  rcases le_or_lt x 180 with hx | hx
  · have hr1 : -π < radians x := by
      unfold radians
      nlinarith
    have hr2 : radians x ≤ π := by
      unfold radians
      nlinarith
    rw [atan2_sin_cos hr1 hr2, degrees_radians, mod360_of_range h1 h2]
  · have hs : Real.sin (radians x) = Real.sin (radians x - 2 * π) :=
      (Real.sin_sub_two_pi _).symm
    have hc : Real.cos (radians x) = Real.cos (radians x - 2 * π) :=
      (Real.cos_sub_two_pi _).symm
    have hr1 : -π < radians x - 2 * π := by
      unfold radians
      nlinarith
    have hr2 : radians x - 2 * π ≤ π := by
      unfold radians
      nlinarith
    have hdeg : degrees (radians x - 2 * π) = x - 360 := by
      unfold degrees radians
      field_simp
      ring
    rw [hs, hc, atan2_sin_cos hr1 hr2, hdeg,
      mod360_of_neg_range (by linarith) (by linarith)]
    ring

/-- Modelled from the spec: `matrixToEuler(g)` extracts Bunge Euler angles
in degrees using `Phi = acos(g[2,2])` when `g[2,2]` is not of absolute
value 1, with `zeta = 1/sqrt(1 - g[2,2]^2)` and the two in-plane angles
from `atan2`; in the degenerate case it sets `phi2 = 0` by convention and
computes `phi1` from `atan2` of the first-row terms.  In-plane angles are
reduced into [0, 360).  This is `Orientation.OrientationMatrix2Euler`. -/
noncomputable def OrientationMatrix2Euler (g : Matrix (Fin 3) (Fin 3) ℝ) : ℝ × ℝ × ℝ :=
  if |g 2 2| < 1 then
    (mod360 (degrees (atan2 (g 2 0 * (1 / √(1 - g 2 2 ^ 2)))
        (-(g 2 1) * (1 / √(1 - g 2 2 ^ 2))))),
     degrees (Real.arccos (g 2 2)),
     mod360 (degrees (atan2 (g 0 2 * (1 / √(1 - g 2 2 ^ 2)))
        (g 1 2 * (1 / √(1 - g 2 2 ^ 2))))))
  else
    (mod360 (degrees (atan2 (g 0 1) (g 0 0))), degrees (Real.arccos (g 2 2)), 0)

/-- Uncurried form of `from_euler`, for composing with the extraction. -/
noncomputable def from_euler3 (e : ℝ × ℝ × ℝ) : Matrix (Fin 3) (Fin 3) ℝ :=
  from_euler e.1 e.2.1 e.2.2

theorem from_euler_apply (p1 P p2 : ℝ) :
    from_euler p1 P p2 =
      !![cos (radians p1) * cos (radians p2) -
           sin (radians p1) * sin (radians p2) * cos (radians P),
         sin (radians p1) * cos (radians p2) +
           cos (radians p1) * sin (radians p2) * cos (radians P),
         sin (radians p2) * sin (radians P);
         -(cos (radians p1)) * sin (radians p2) -
           sin (radians p1) * cos (radians p2) * cos (radians P),
         -(sin (radians p1)) * sin (radians p2) +
           cos (radians p1) * cos (radians p2) * cos (radians P),
         cos (radians p2) * sin (radians P);
         sin (radians p1) * sin (radians P),
         -(cos (radians p1)) * sin (radians P),
         cos (radians P)] := rfl

theorem cos_lt_one_of_mem {θ : ℝ} (h1 : 0 < θ) (h2 : θ < π) : Real.cos θ < 1 := by
  rcases lt_or_eq_of_le (Real.cos_le_one θ) with h | h
  · exact h
  · exfalso
    have hz := (Real.cos_eq_one_iff_of_lt_of_lt
      (by linarith [Real.pi_pos] : -(2 * π) < θ) (by linarith [Real.pi_pos])).1 h
    linarith

theorem neg_one_lt_cos_of_mem {θ : ℝ} (h1 : 0 < θ) (h2 : θ < π) : -1 < Real.cos θ := by
  have h3 : Real.cos (π - θ) < 1 := cos_lt_one_of_mem (by linarith) (by linarith)
  rw [Real.cos_pi_sub] at h3
  linarith

/-- Extraction inverts construction on the canonical range, nondegenerate
case: `Phi` strictly between 0 and 180 degrees. -/
theorem om2euler_from_euler (p1 P p2 : ℝ) (h1a : 0 ≤ p1) (h1b : p1 < 360)
    (hPa : 0 < P) (hPb : P < 180) (h2a : 0 ≤ p2) (h2b : p2 < 360) :
    OrientationMatrix2Euler (from_euler p1 P p2) = (p1, P, p2) := by
  have hpi := Real.pi_pos
  have hθ1 : 0 < radians P := by unfold radians; nlinarith
  have hθ2 : radians P < π := by unfold radians; nlinarith
  have habs : |Real.cos (radians P)| < 1 :=
    abs_lt.2 ⟨neg_one_lt_cos_of_mem hθ1 hθ2, cos_lt_one_of_mem hθ1 hθ2⟩
  have hsin : 0 < Real.sin (radians P) := Real.sin_pos_of_pos_of_lt_pi hθ1 hθ2
  have h22 : (from_euler p1 P p2) 2 2 = Real.cos (radians P) := by
    rw [from_euler_apply]; simp
  have h20 : (from_euler p1 P p2) 2 0 = Real.sin (radians p1) * Real.sin (radians P) := by
    rw [from_euler_apply]; simp
  have h21 : (from_euler p1 P p2) 2 1 = -(Real.cos (radians p1)) * Real.sin (radians P) := by
    rw [from_euler_apply]; simp
  have h02 : (from_euler p1 P p2) 0 2 = Real.sin (radians p2) * Real.sin (radians P) := by
    rw [from_euler_apply]; simp
  have h12 : (from_euler p1 P p2) 1 2 = Real.cos (radians p2) * Real.sin (radians P) := by
    rw [from_euler_apply]; simp
  have hzeta : √(1 - Real.cos (radians P) ^ 2) = Real.sin (radians P) := by
    rw [show 1 - Real.cos (radians P) ^ 2 = Real.sin (radians P) ^ 2 from by
      rw [Real.sin_sq]]
    exact Real.sqrt_sq hsin.le
  have harg1 : Real.sin (radians p1) * Real.sin (radians P) *
      (1 / √(1 - Real.cos (radians P) ^ 2)) = Real.sin (radians p1) := by
    rw [hzeta]; field_simp
  have harg1' : -(-(Real.cos (radians p1)) * Real.sin (radians P)) *
      (1 / √(1 - Real.cos (radians P) ^ 2)) = Real.cos (radians p1) := by
    rw [hzeta]; field_simp
  have harg2 : Real.sin (radians p2) * Real.sin (radians P) *
      (1 / √(1 - Real.cos (radians P) ^ 2)) = Real.sin (radians p2) := by
    rw [hzeta]; field_simp
  have harg2' : Real.cos (radians p2) * Real.sin (radians P) *
      (1 / √(1 - Real.cos (radians P) ^ 2)) = Real.cos (radians p2) := by
    rw [hzeta]; field_simp
  rw [OrientationMatrix2Euler, h22, h20, h21, h02, h12, if_pos habs,
    harg1, harg1', harg2, harg2',
    mod360_degrees_atan2 h1a h1b, mod360_degrees_atan2 h2a h2b,
    Real.arccos_cos hθ1.le hθ2.le, degrees_radians]

theorem degrees_zero : degrees 0 = 0 := by
  unfold degrees
  simp

theorem degrees_pi : degrees π = 180 := by
  unfold degrees
  field_simp

/-- Extraction inverts construction, degenerate case `Phi = 0`. -/
theorem om2euler_from_euler_phiz (p1 : ℝ) (h1a : 0 ≤ p1) (h1b : p1 < 360) :
    OrientationMatrix2Euler (from_euler p1 0 0) = (p1, 0, 0) := by
  have hr0 : radians 0 = 0 := by unfold radians; ring
  have h22 : (from_euler p1 0 0) 2 2 = 1 := by
    rw [from_euler_apply, hr0]; simp
  have h01 : (from_euler p1 0 0) 0 1 = Real.sin (radians p1) := by
    rw [from_euler_apply, hr0]; simp
  have h00 : (from_euler p1 0 0) 0 0 = Real.cos (radians p1) := by
    rw [from_euler_apply, hr0]; simp
  rw [OrientationMatrix2Euler, h22, h01, h00, if_neg (by norm_num),
    mod360_degrees_atan2 h1a h1b, Real.arccos_one, degrees_zero]

/-- Extraction inverts construction, degenerate case `Phi = 180`. -/
theorem om2euler_from_euler_phipi (p1 : ℝ) (h1a : 0 ≤ p1) (h1b : p1 < 360) :
    OrientationMatrix2Euler (from_euler p1 180 0) = (p1, 180, 0) := by
  have hr0 : radians 0 = 0 := by unfold radians; ring
  have hrpi : radians 180 = π := by unfold radians; field_simp
  have h22 : (from_euler p1 180 0) 2 2 = -1 := by
    rw [from_euler_apply, hr0, hrpi]; simp
  have h01 : (from_euler p1 180 0) 0 1 = Real.sin (radians p1) := by
    rw [from_euler_apply, hr0, hrpi]; simp
  have h00 : (from_euler p1 180 0) 0 0 = Real.cos (radians p1) := by
    rw [from_euler_apply, hr0, hrpi]; simp
  rw [OrientationMatrix2Euler, h22, h01, h00, if_neg (by norm_num),
    mod360_degrees_atan2 h1a h1b, Real.arccos_neg_one, degrees_pi]

/-- Round-trip law for the Euler-angle extraction: extracting, rebuilding
and extracting again reproduces the first extraction exactly, for every
real 3x3 matrix. -/
theorem euler_round_trip (g : Matrix (Fin 3) (Fin 3) ℝ) :
    OrientationMatrix2Euler (from_euler3 (OrientationMatrix2Euler g)) =
      OrientationMatrix2Euler g := by
  have hpi := Real.pi_pos
  by_cases hd : |g 2 2| < 1
  · have h1 : OrientationMatrix2Euler g =
        (mod360 (degrees (atan2 (g 2 0 * (1 / √(1 - g 2 2 ^ 2)))
            (-(g 2 1) * (1 / √(1 - g 2 2 ^ 2))))),
         degrees (Real.arccos (g 2 2)),
         mod360 (degrees (atan2 (g 0 2 * (1 / √(1 - g 2 2 ^ 2)))
            (g 1 2 * (1 / √(1 - g 2 2 ^ 2)))))) := by
      rw [OrientationMatrix2Euler, if_pos hd]
    rw [h1, from_euler3]
    have hlt : g 2 2 < 1 := (abs_lt.1 hd).2
    have hgt : -1 < g 2 2 := (abs_lt.1 hd).1
    have hac1 : 0 < Real.arccos (g 2 2) := Real.arccos_pos.2 hlt
    have hac2 : Real.arccos (g 2 2) < π := by
      rcases lt_or_eq_of_le (Real.arccos_le_pi (g 2 2)) with h | h
      · exact h
      · exfalso
        have := (Real.arccos_eq_pi).1 h
        linarith
    exact om2euler_from_euler _ _ _ (mod360_nonneg _) (mod360_lt _)
      (by unfold degrees; exact div_pos (by nlinarith) hpi)
      (by unfold degrees; rw [div_lt_iff hpi]; nlinarith)
      (mod360_nonneg _) (mod360_lt _)
  · have h1 : OrientationMatrix2Euler g =
        (mod360 (degrees (atan2 (g 0 1) (g 0 0))), degrees (Real.arccos (g 2 2)), 0) := by
      rw [OrientationMatrix2Euler, if_neg hd]
    rw [h1, from_euler3]
    rcases le_or_lt 1 (g 2 2) with hge | hlt
    · rw [Real.arccos_of_one_le hge, degrees_zero]
      exact om2euler_from_euler_phiz _ (mod360_nonneg _) (mod360_lt _)
    · have hle : g 2 2 ≤ -1 := by
        rcases abs_cases (g 2 2) with ⟨h, _⟩ | ⟨h, _⟩
        · exfalso
          have := not_lt.1 hd
          linarith
        · have := not_lt.1 hd
          linarith
      rw [Real.arccos_of_le_neg_one hle, degrees_pi]
      exact om2euler_from_euler_phipi _ (mod360_nonneg _) (mod360_lt _)

/-- C5: for every matrix `g`, extracting Euler angles, rebuilding with
`fromEuler`, and extracting again reproduces the angles of the first
extraction exactly (hence in particular within 1e-3 degrees per angle);
and `fromEuler(45, 45, 0)` yields an Orientation with `phi1() = 45` and
`Phi() = 45`. -/
theorem claim_C5_euler_round_trip :
    (∀ g : Matrix (Fin 3) (Fin 3) ℝ,
        OrientationMatrix2Euler (from_euler3 (OrientationMatrix2Euler g)) =
          OrientationMatrix2Euler g) ∧
    (OrientationMatrix2Euler (from_euler 45 45 0)).1 = 45 ∧
    (OrientationMatrix2Euler (from_euler 45 45 0)).2.1 = 45 := by
  refine ⟨euler_round_trip, ?_, ?_⟩ <;>
    rw [om2euler_from_euler 45 45 0 (by norm_num) (by norm_num) (by norm_num)
      (by norm_num) (by norm_num) (by norm_num)]

theorem geom_partial (n : ℕ) (t : ℝ) :
    (1:ℝ)/(1+t^2) = (∑ k ∈ Finset.range n, (-1:ℝ)^k * t^(2*k)) +
      (-1)^n * t^(2*n)/(1+t^2) := by
  have h1 : (1:ℝ) + t^2 ≠ 0 := by positivity
  have hr : (-t^2 : ℝ) ≠ 1 := by nlinarith [sq_nonneg t]
  have hpow : ∀ k : ℕ, (-t^2 : ℝ)^k = (-1:ℝ)^k * t^(2*k) := fun k => by
    rw [neg_pow, pow_mul]
  have hgeom := geom_sum_eq hr n
  have hsum : (∑ k ∈ Finset.range n, (-1:ℝ)^k * t^(2*k)) =
      ((-t^2 : ℝ)^n - 1) / (-t^2 - 1) := by
    rw [← hgeom]
    exact Finset.sum_congr rfl fun k _ => (hpow k).symm
  rw [hsum, hpow]
  have h2 : (-t^2 - 1 : ℝ) ≠ 0 := by nlinarith [sq_nonneg t]
  field_simp
  ring

theorem arctan_eq_sum_add (n : ℕ) (v : ℝ) :
    Real.arctan v = (∑ k ∈ Finset.range n, (-1:ℝ)^k * v^(2*k+1)/(2*k+1)) +
      ∫ t in (0:ℝ)..v, (-1)^n * t^(2*n) / (1 + t^2) := by
  have hone : ∀ t : ℝ, (1:ℝ) + t^2 ≠ 0 := fun t => by positivity
  have hbase : Real.arctan v = ∫ t in (0:ℝ)..v, 1/(1+t^2) := by
    rw [integral_one_div_one_add_sq]
    norm_num
  have hcont1 : Continuous fun t : ℝ => ∑ k ∈ Finset.range n, (-1:ℝ)^k * t^(2*k) := by
    apply continuous_finset_sum
    intro k _
    exact continuous_const.mul (continuous_pow _)
  have hcont2 : Continuous fun t : ℝ => (-1:ℝ)^n * t^(2*n) / (1 + t^2) := by
    apply Continuous.div (continuous_const.mul (continuous_pow _))
    · exact continuous_const.add (continuous_pow 2)
    · exact fun t => hone t
  rw [hbase, intervalIntegral.integral_congr
    (g := fun t => (∑ k ∈ Finset.range n, (-1:ℝ)^k * t^(2*k)) +
      (-1)^n * t^(2*n) / (1 + t^2)) (fun t _ => geom_partial n t),
    intervalIntegral.integral_add (hcont1.intervalIntegrable _ _)
      (hcont2.intervalIntegrable _ _)]
  congr 1
  rw [intervalIntegral.integral_finset_sum]
  · apply Finset.sum_congr rfl
    intro k _
    rw [intervalIntegral.integral_const_mul, integral_pow]
    rw [zero_pow (by omega : 2*k+1 ≠ 0)]
    push_cast
    ring
  · intro k _
    exact (continuous_const.mul (continuous_pow _)).intervalIntegrable _ _

theorem arctan_series_err (n : ℕ) (v : ℝ) (h0 : 0 ≤ v) :
    |Real.arctan v - ∑ k ∈ Finset.range n, (-1:ℝ)^k * v^(2*k+1)/(2*k+1)| ≤
      v^(2*n+1)/(2*n+1) := by
  rw [arctan_eq_sum_add n v, add_comm, add_sub_cancel_right]
  have hcont2 : Continuous fun t : ℝ => (-1:ℝ)^n * t^(2*n) / (1 + t^2) := by
    apply Continuous.div (continuous_const.mul (continuous_pow _))
    · exact continuous_const.add (continuous_pow 2)
    · intro t; positivity
  calc |∫ t in (0:ℝ)..v, (-1)^n * t^(2*n) / (1 + t^2)|
      ≤ ∫ t in (0:ℝ)..v, |(-1)^n * t^(2*n) / (1 + t^2)| :=
        intervalIntegral.abs_integral_le_integral_abs h0
    _ ≤ ∫ t in (0:ℝ)..v, t^(2*n) := by
        apply intervalIntegral.integral_mono_on h0
          (hcont2.abs.intervalIntegrable _ _)
          ((continuous_pow _).intervalIntegrable _ _)
        intro x hx
        have hx0 : 0 ≤ x := hx.1
        have h1x : (1:ℝ) ≤ 1 + x^2 := by nlinarith
        rw [abs_div, abs_mul, abs_pow, abs_pow, abs_neg, abs_one, one_pow, one_mul,
          abs_of_nonneg hx0, abs_of_nonneg (by positivity : (0:ℝ) ≤ 1 + x^2)]
        exact div_le_self (by positivity) h1x
    _ = v^(2*n+1)/(2*n+1) := by
        rw [integral_pow]
        rw [zero_pow (by omega : 2*n+1 ≠ 0)]
        push_cast
        ring

theorem radians_mod360 (y : ℝ) :
    radians (mod360 y) = radians y - (⌊y / 360⌋ : ℤ) * (2 * π) := by
  unfold radians mod360
  push_cast
  ring

theorem cos_radians_mod360 (y : ℝ) :
    Real.cos (radians (mod360 y)) = Real.cos (radians y) := by
  rw [radians_mod360, Real.cos_sub_int_mul_two_pi]

theorem sin_radians_mod360 (y : ℝ) :
    Real.sin (radians (mod360 y)) = Real.sin (radians y) := by
  rw [radians_mod360, Real.sin_sub_int_mul_two_pi]

theorem cos_two_arctan (t : ℝ) : Real.cos (2 * Real.arctan t) = (1 - t^2) / (1 + t^2) := by
  have h1 : (0:ℝ) < 1 + t^2 := by positivity
  rw [Real.cos_two_mul, Real.cos_arctan]
  rw [div_pow, one_pow, Real.sq_sqrt h1.le]
  field_simp
  ring

theorem sin_two_arctan (t : ℝ) : Real.sin (2 * Real.arctan t) = 2 * t / (1 + t^2) := by
  have h1 : (0:ℝ) < 1 + t^2 := by positivity
  rw [Real.sin_two_mul, Real.sin_arctan, Real.cos_arctan]
  have hmm : t / √(1+t^2) * (1/√(1+t^2)) = t / (1+t^2) := by
    rw [div_mul_div_comm, mul_one, Real.mul_self_sqrt h1.le]
  rw [mul_assoc, hmm, mul_div_assoc]

/-- Any half-angle-tangent root of the quadratic gives a root of the
original trigonometric equation, after conversion to degrees and
normalization into [0, 360). -/
theorem root_of_halftan {a b c t : ℝ} (h : (a + c) * t^2 - 2*b*t + (c - a) = 0) :
    a * Real.cos (radians (mod360 (degrees (2 * Real.arctan t)))) +
      b * Real.sin (radians (mod360 (degrees (2 * Real.arctan t)))) = c := by
  rw [cos_radians_mod360, sin_radians_mod360, radians_degrees,
    cos_two_arctan, sin_two_arctan]
  have h1 : (1:ℝ) + t^2 ≠ 0 := by positivity
  field_simp
  linear_combination -h

/-- Modelled from the spec: `solveTrigEquation(a, b, c)` solves
`a*cos(x) + b*sin(x) = c` by the substitution `t = tan(x/2)` giving the
quadratic `(a+c)t^2 - 2bt + (c-a) = 0`; it fails (None) exactly when the
discriminant `4(a^2+b^2-c^2)` is negative, and otherwise returns the two
roots `x = 2*atan(t)` converted to degrees and normalized into [0, 360).
The degenerate linear case `a + c = 0` is handled separately (`x = 180`
is then always a root).  This is `Orientation.solve_trig_equation`. -/
noncomputable def solve_trig_equation (a b c : ℝ) : Option (ℝ × ℝ) :=
  if 4 * (a^2 + b^2 - c^2) < 0 then none
  else if a + c = 0 then
    if b = 0 then some (180, 180)
    else some (mod360 (degrees (2 * Real.arctan ((c - a) / (2 * b)))), 180)
  else
    some (mod360 (degrees (2 * Real.arctan ((b - √(4 * (a^2 + b^2 - c^2))/2) / (a + c)))),
          mod360 (degrees (2 * Real.arctan ((b + √(4 * (a^2 + b^2 - c^2))/2) / (a + c)))))

theorem solve_trig_none_iff (a b c : ℝ) :
    solve_trig_equation a b c = none ↔ 4 * (a^2 + b^2 - c^2) < 0 := by
  unfold solve_trig_equation
  split <;> rename_i h
  · simp [h]
  · split <;> [skip; simp [h]]
    split <;> simp [h]

theorem x180_root {a b c : ℝ} (hac : a + c = 0) :
    a * Real.cos (radians (180 : ℝ)) + b * Real.sin (radians (180 : ℝ)) = c := by
  have hr : radians 180 = π := by unfold radians; field_simp
  rw [hr, Real.cos_pi, Real.sin_pi]
  linarith

theorem quad_root (a b c s e : ℝ) (hac : a + c ≠ 0) (hs : s^2 = 4*(a^2+b^2-c^2))
    (he : e = 1 ∨ e = -1) :
    (a + c) * ((b + e * (s/2))/(a+c))^2 - 2*b*((b + e * (s/2))/(a+c)) + (c - a) = 0 := by
  have he2 : e^2 = 1 := by rcases he with rfl | rfl <;> norm_num
  have key : (a + c) * ((b + e * (s/2))/(a+c))^2 - 2*b*((b + e * (s/2))/(a+c)) + (c - a)
      = (e^2 * s^2 - 4*(a^2+b^2-c^2))/(4*(a+c)) := by
    field_simp
    ring
  rw [key, he2, one_mul, hs]
  simp

/-- Every returned value of the solver is a genuine root of the
trigonometric equation, normalized into [0, 360). -/
theorem solve_trig_roots {a b c x1 x2 : ℝ}
    (h : solve_trig_equation a b c = some (x1, x2)) :
    (a * Real.cos (radians x1) + b * Real.sin (radians x1) = c ∧ 0 ≤ x1 ∧ x1 < 360) ∧
    (a * Real.cos (radians x2) + b * Real.sin (radians x2) = c ∧ 0 ≤ x2 ∧ x2 < 360) := by
  unfold solve_trig_equation at h
  split at h
  · cases h
  · rename_i hΔ
    have hΔ' : 0 ≤ 4 * (a^2 + b^2 - c^2) := not_lt.1 hΔ
    split at h
    · rename_i hac
      split at h
      · rename_i hb
        simp only [Option.some.injEq, Prod.mk.injEq] at h
        obtain ⟨rfl, rfl⟩ := h
        refine ⟨⟨x180_root hac, by norm_num, by norm_num⟩,
                ⟨x180_root hac, by norm_num, by norm_num⟩⟩
      · rename_i hb
        simp only [Option.some.injEq, Prod.mk.injEq] at h
        obtain ⟨rfl, rfl⟩ := h
        refine ⟨⟨root_of_halftan ?_, mod360_nonneg _, mod360_lt _⟩,
                ⟨x180_root hac, by norm_num, by norm_num⟩⟩
        have hb' : (b:ℝ) ≠ 0 := hb
        rw [hac]
        field_simp
    · rename_i hac
      simp only [Option.some.injEq, Prod.mk.injEq] at h
      obtain ⟨rfl, rfl⟩ := h
      have hs : √(4 * (a^2 + b^2 - c^2)) ^ 2 = 4 * (a^2 + b^2 - c^2) :=
        Real.sq_sqrt hΔ'
      constructor
      · refine ⟨root_of_halftan ?_, mod360_nonneg _, mod360_lt _⟩
        have := quad_root a b c (√(4 * (a^2 + b^2 - c^2))) (-1) hac hs (Or.inr rfl)
        calc (a + c) * ((b - √(4 * (a^2+b^2-c^2))/2) / (a+c))^2 -
              2*b*((b - √(4 * (a^2+b^2-c^2))/2) / (a+c)) + (c - a)
            = (a + c) * ((b + (-1) * (√(4 * (a^2+b^2-c^2))/2)) / (a+c))^2 -
              2*b*((b + (-1) * (√(4 * (a^2+b^2-c^2))/2)) / (a+c)) + (c - a) := by
              ring_nf
          _ = 0 := this
      · refine ⟨root_of_halftan ?_, mod360_nonneg _, mod360_lt _⟩
        have := quad_root a b c (√(4 * (a^2 + b^2 - c^2))) 1 hac hs (Or.inl rfl)
        calc (a + c) * ((b + √(4 * (a^2+b^2-c^2))/2) / (a+c))^2 -
              2*b*((b + √(4 * (a^2+b^2-c^2))/2) / (a+c)) + (c - a)
            = (a + c) * ((b + 1 * (√(4 * (a^2+b^2-c^2))/2)) / (a+c))^2 -
              2*b*((b + 1 * (√(4 * (a^2+b^2-c^2))/2)) / (a+c)) + (c - a) := by
              ring_nf
          _ = 0 := this

theorem sqrt31_lb : 5.5677643628 < √31 := by
  have h := Real.sq_sqrt (show (0:ℝ) ≤ 31 by norm_num)
  have hn := Real.sqrt_nonneg 31
  nlinarith

theorem sqrt31_ub : √31 < 5.5677643629 := by
  have h := Real.sq_sqrt (show (0:ℝ) ≤ 31 by norm_num)
  have hn := Real.sqrt_nonneg 31
  nlinarith

theorem sqrt124_eq : √(4 * ((2:ℝ)^2 + (-6)^2 - 3^2)) = 2 * √31 := by
  rw [show 4 * ((2:ℝ)^2 + (-6)^2 - 3^2) = 4 * 31 by norm_num,
    Real.sqrt_mul (by norm_num : (0:ℝ) ≤ 4),
    show √(4:ℝ) = 2 from by
      rw [show (4:ℝ) = 2^2 by norm_num, Real.sqrt_sq (by norm_num)]]

theorem arctan_A_lb : (0.40798326 : ℝ) < Real.arctan (6 - √31) := by
  have hq : (0.4322356371 : ℝ) < 6 - √31 := by linarith [sqrt31_ub]
  have hmono := Real.arctan_strictMono hq
  have herr := arctan_series_err 7 0.4322356371 (by norm_num)
  rcases abs_le.1 herr with ⟨hlo, _⟩
  have hS : (0.40798349 : ℝ) ≤
      ∑ k ∈ Finset.range 7, (-1:ℝ)^k * (0.4322356371:ℝ)^(2*k+1)/(2*k+1) := by
    rw [Finset.sum_range_succ, Finset.sum_range_succ, Finset.sum_range_succ,
      Finset.sum_range_succ, Finset.sum_range_succ, Finset.sum_range_succ,
      Finset.sum_range_succ, Finset.sum_range_zero]
    norm_num
  have hrem : ((0.4322356371:ℝ))^(2*7+1)/(2*7+1) ≤ 0.00000023 := by norm_num
  linarith

theorem arctan_A_ub : Real.arctan (6 - √31) < 0.40798373 := by
  have hq : 6 - √31 < (0.4322356372 : ℝ) := by linarith [sqrt31_lb]
  have hmono := Real.arctan_strictMono hq
  have herr := arctan_series_err 7 0.4322356372 (by norm_num)
  rcases abs_le.1 herr with ⟨_, hhi⟩
  have hS : (∑ k ∈ Finset.range 7, (-1:ℝ)^k * (0.4322356372:ℝ)^(2*k+1)/(2*k+1)) ≤
      0.40798350 := by
    rw [Finset.sum_range_succ, Finset.sum_range_succ, Finset.sum_range_succ,
      Finset.sum_range_succ, Finset.sum_range_succ, Finset.sum_range_succ,
      Finset.sum_range_succ, Finset.sum_range_zero]
    norm_num
  have hrem : ((0.4322356372:ℝ))^(2*7+1)/(2*7+1) ≤ 0.00000023 := by norm_num
  linarith

theorem arctan_B_lb : (0.08623274 : ℝ) < Real.arctan ((6 - √31)/5) := by
  have hq : (0.0864471274 : ℝ) < (6 - √31)/5 := by linarith [sqrt31_ub]
  have hmono := Real.arctan_strictMono hq
  have herr := arctan_series_err 3 0.0864471274 (by norm_num)
  rcases abs_le.1 herr with ⟨hlo, _⟩
  have hS : (0.086232749 : ℝ) ≤
      ∑ k ∈ Finset.range 3, (-1:ℝ)^k * (0.0864471274:ℝ)^(2*k+1)/(2*k+1) := by
    rw [Finset.sum_range_succ, Finset.sum_range_succ, Finset.sum_range_succ,
      Finset.sum_range_zero]
    norm_num
  have hrem : ((0.0864471274:ℝ))^(2*3+1)/(2*3+1) ≤ 0.000000006 := by norm_num
  linarith

theorem arctan_B_ub : Real.arctan ((6 - √31)/5) < 0.08623276 := by
  have hq : (6 - √31)/5 < (0.0864471275 : ℝ) := by linarith [sqrt31_lb]
  have hmono := Real.arctan_strictMono hq
  have herr := arctan_series_err 3 0.0864471275 (by norm_num)
  rcases abs_le.1 herr with ⟨_, hhi⟩
  have hS : (∑ k ∈ Finset.range 3, (-1:ℝ)^k * (0.0864471275:ℝ)^(2*k+1)/(2*k+1)) ≤
      0.086232751 := by
    rw [Finset.sum_range_succ, Finset.sum_range_succ, Finset.sum_range_succ,
      Finset.sum_range_zero]
    norm_num
  have hrem : ((0.0864471275:ℝ))^(2*3+1)/(2*3+1) ≤ 0.000000006 := by norm_num
  linarith

theorem abs_deg_shift {X T : ℝ} (h : |X + 2*π - T| < 0.005 * π / 180)
    (hX1 : -360 ≤ degrees X) (hX2 : degrees X < 0) :
    |mod360 (degrees X) - T * (180/π)| < 0.005 := by
  have hpi := Real.pi_pos
  rw [mod360_of_neg_range hX1 hX2]
  have key : degrees X + 360 - T * (180/π) = (X + 2*π - T) * (180/π) := by
    unfold degrees
    field_simp
    ring
  rw [key, abs_mul, abs_of_pos (by positivity : (0:ℝ) < 180/π)]
  calc |X + 2*π - T| * (180/π) < (0.005 * π/180) * (180/π) :=
        mul_lt_mul_of_pos_right h (by positivity)
    _ = 0.005 := by field_simp

theorem solve_trig_concrete :
    ∃ x1 x2, solve_trig_equation 2 (-6) 3 = some (x1, x2) ∧
      |x1 - 3.9575 * (180/π)| < 0.005 ∧ |x2 - 6.1107 * (180/π)| < 0.005 := by
  have hpi1 : (3.141592:ℝ) < π := Real.pi_gt_d6
  have hpi2 : π < 3.141593 := Real.pi_lt_d6
  have hpi := Real.pi_pos
  have hA1 := arctan_A_lb
  have hA2 := arctan_A_ub
  have hB1 := arctan_B_lb
  have hB2 := arctan_B_ub
  have h31 : √31^2 = 31 := Real.sq_sqrt (by norm_num)
  have harg1 : ((-6:ℝ) - √(4 * ((2:ℝ)^2 + (-6)^2 - 3^2))/2) / (2+3) = -((6 + √31)/5) := by
    rw [sqrt124_eq]
    ring
  have harg2 : ((-6:ℝ) + √(4 * ((2:ℝ)^2 + (-6)^2 - 3^2))/2) / (2+3) = -((6 - √31)/5) := by
    rw [sqrt124_eq]
    ring
  have hinv : (((6:ℝ) + √31)/5)⁻¹ = 6 - √31 := by
    apply inv_eq_of_mul_eq_one_right
    have hpos : (0:ℝ) < 6 + √31 := by positivity
    field_simp
    nlinarith
  have hAident : Real.arctan ((6 + √31)/5) = π/2 - Real.arctan (6 - √31) := by
    have h0 : (0:ℝ) < (6 + √31)/5 := by positivity
    have hh := Real.arctan_inv_of_pos h0
    rw [hinv] at hh
    linarith
  have hX1 : 2 * Real.arctan (-((6 + √31)/5)) = -π + 2 * Real.arctan (6 - √31) := by
    rw [Real.arctan_neg, hAident]
    ring
  have hX2 : 2 * Real.arctan (-((6 - √31)/5)) = -(2 * Real.arctan ((6 - √31)/5)) := by
    rw [Real.arctan_neg]
    ring
  refine ⟨mod360 (degrees (2 * Real.arctan (-((6 + √31)/5)))),
          mod360 (degrees (2 * Real.arctan (-((6 - √31)/5)))), ?_, ?_, ?_⟩
  · unfold solve_trig_equation
    rw [if_neg (by norm_num), if_neg (by norm_num), harg1, harg2]
  · rw [hX1]
    apply abs_deg_shift
    · rw [show (-π + 2 * Real.arctan (6 - √31)) + 2*π - 3.9575 =
        π + 2 * Real.arctan (6 - √31) - 3.9575 by ring]
      rw [abs_lt]
      constructor <;> nlinarith
    · unfold degrees
      rw [le_div_iff hpi]
      nlinarith
    · unfold degrees
      apply div_neg_of_neg_of_pos _ hpi
      nlinarith
  · rw [hX2]
    apply abs_deg_shift
    · rw [show -(2 * Real.arctan ((6 - √31)/5)) + 2*π - 6.1107 =
        2*π - 2 * Real.arctan ((6 - √31)/5) - 6.1107 by ring]
      rw [abs_lt]
      constructor <;> nlinarith
    · unfold degrees
      rw [le_div_iff hpi]
      nlinarith
    · unfold degrees
      apply div_neg_of_neg_of_pos _ hpi
      nlinarith

/-- C3: `solveTrigEquation(a, b, c)` fails exactly when the discriminant
`4(a^2 + b^2 - c^2)` is negative; otherwise it returns two real roots of
`a*cos(x) + b*sin(x) = c`, each normalized into [0, 360) degrees; in
particular `solveTrigEquation(2, -6, 3)` returns two roots approximately
3.9575 rad and 6.1107 rad (2-decimal tolerance after conversion to
degrees). -/
theorem claim_C3_solve_trig_equation :
    (∀ a b c : ℝ, solve_trig_equation a b c = none ↔ 4 * (a^2 + b^2 - c^2) < 0) ∧
    (∀ a b c x1 x2 : ℝ, solve_trig_equation a b c = some (x1, x2) →
      (a * Real.cos (radians x1) + b * Real.sin (radians x1) = c ∧ 0 ≤ x1 ∧ x1 < 360) ∧
      (a * Real.cos (radians x2) + b * Real.sin (radians x2) = c ∧ 0 ≤ x2 ∧ x2 < 360)) ∧
    (∃ x1 x2, solve_trig_equation 2 (-6) 3 = some (x1, x2) ∧
      |x1 - 3.9575 * (180/π)| < 0.005 ∧ |x2 - 6.1107 * (180/π)| < 0.005) :=
  ⟨solve_trig_none_iff, fun _ _ _ _ _ h => solve_trig_roots h, solve_trig_concrete⟩

/-- Witness for C3 at a concrete input: the root property applied to the
solver output at `(a, b, c) = (1, 0, -1)` (degenerate linear case, root
180 degrees). -/
theorem claim_C3_solve_trig_equation_witness :
    (1 * Real.cos (radians (180:ℝ)) + 0 * Real.sin (radians (180:ℝ)) = -1 ∧
      (0:ℝ) ≤ 180 ∧ (180:ℝ) < 360) ∧
    (1 * Real.cos (radians (180:ℝ)) + 0 * Real.sin (radians (180:ℝ)) = -1 ∧
      (0:ℝ) ≤ 180 ∧ (180:ℝ) < 360) :=
  claim_C3_solve_trig_equation.2.1 1 0 (-1) 180 180 (by
    unfold solve_trig_equation
    rw [if_neg (by norm_num), if_pos (by norm_num), if_pos rfl])

theorem exp_I_partial_sum (x : ℝ) :
    (∑ m ∈ Finset.range 10, ((x:ℂ) * Complex.I) ^ m / m.factorial) =
      ((1 - x^2/2 + x^4/24 - x^6/720 + x^8/40320 : ℝ) : ℂ) +
      ((x - x^3/6 + x^5/120 - x^7/5040 + x^9/362880 : ℝ) : ℂ) * Complex.I := by
  have hI2 : Complex.I^2 = -1 := Complex.I_sq
  have hI3 : Complex.I^3 = -Complex.I := by rw [pow_succ, hI2]; ring
  have hI4 : Complex.I^4 = 1 := by rw [pow_succ, hI3]; simp [Complex.I_mul_I]
  have hI5 : Complex.I^5 = Complex.I := by rw [pow_succ, hI4]; ring
  have hI6 : Complex.I^6 = -1 := by rw [pow_succ, hI5, Complex.I_mul_I]
  have hI7 : Complex.I^7 = -Complex.I := by rw [pow_succ, hI6]; ring
  have hI8 : Complex.I^8 = 1 := by rw [pow_succ, hI7]; simp [Complex.I_mul_I]
  have hI9 : Complex.I^9 = Complex.I := by rw [pow_succ, hI8]; ring
  simp only [Finset.sum_range_succ, Finset.sum_range_zero, Nat.factorial]
  push_cast
  ring_nf
  rw [hI2, hI3, hI4, hI5, hI6, hI7, hI8, hI9]
  ring

/-- Order-10 certified Taylor approximation of the cosine on [-1, 1]. -/
theorem cos_taylor10 (x : ℝ) (hx : |x| ≤ 1) :
    |Real.cos x - (1 - x^2/2 + x^4/24 - x^6/720 + x^8/40320)| ≤ (11/36288000) * |x|^10 := by
  have habs : Complex.abs ((x:ℂ) * Complex.I) ≤ 1 := by
    rwa [Complex.abs.map_mul, Complex.abs_I, mul_one, Complex.abs_ofReal]
  have hb := Complex.exp_bound habs (by norm_num : 0 < 10)
  rw [exp_I_partial_sum] at hb
  have hre : (Complex.exp ((x:ℂ) * Complex.I) -
      (((1 - x^2/2 + x^4/24 - x^6/720 + x^8/40320 : ℝ) : ℂ) +
       ((x - x^3/6 + x^5/120 - x^7/5040 + x^9/362880 : ℝ) : ℂ) * Complex.I)).re =
      Real.cos x - (1 - x^2/2 + x^4/24 - x^6/720 + x^8/40320) := by
    simp only [Complex.sub_re, Complex.add_re, Complex.mul_re, Complex.ofReal_re,
      Complex.ofReal_im, Complex.I_re, Complex.I_im, Complex.exp_ofReal_mul_I_re]
    ring
  have key : |Real.cos x - (1 - x^2/2 + x^4/24 - x^6/720 + x^8/40320)| ≤
      Complex.abs (Complex.exp ((x:ℂ) * Complex.I) -
        (((1 - x^2/2 + x^4/24 - x^6/720 + x^8/40320 : ℝ) : ℂ) +
         ((x - x^3/6 + x^5/120 - x^7/5040 + x^9/362880 : ℝ) : ℂ) * Complex.I)) := by
    rw [← hre]
    exact Complex.abs_re_le_abs _
  refine key.trans (hb.trans ?_)
  rw [Complex.abs.map_mul, Complex.abs_I, mul_one, Complex.abs_ofReal]
  norm_num [Nat.factorial]
  rw [mul_comm]

/-- Order-10 certified Taylor approximation of the sine on [-1, 1]. -/
theorem sin_taylor10 (x : ℝ) (hx : |x| ≤ 1) :
    |Real.sin x - (x - x^3/6 + x^5/120 - x^7/5040 + x^9/362880)| ≤ (11/36288000) * |x|^10 := by
  have habs : Complex.abs ((x:ℂ) * Complex.I) ≤ 1 := by
    rwa [Complex.abs.map_mul, Complex.abs_I, mul_one, Complex.abs_ofReal]
  have hb := Complex.exp_bound habs (by norm_num : 0 < 10)
  rw [exp_I_partial_sum] at hb
  have him : (Complex.exp ((x:ℂ) * Complex.I) -
      (((1 - x^2/2 + x^4/24 - x^6/720 + x^8/40320 : ℝ) : ℂ) +
       ((x - x^3/6 + x^5/120 - x^7/5040 + x^9/362880 : ℝ) : ℂ) * Complex.I)).im =
      Real.sin x - (x - x^3/6 + x^5/120 - x^7/5040 + x^9/362880) := by
    simp only [Complex.sub_im, Complex.add_im, Complex.mul_im, Complex.ofReal_re,
      Complex.ofReal_im, Complex.I_re, Complex.I_im, Complex.exp_ofReal_mul_I_im]
    ring
  have key : |Real.sin x - (x - x^3/6 + x^5/120 - x^7/5040 + x^9/362880)| ≤
      Complex.abs (Complex.exp ((x:ℂ) * Complex.I) -
        (((1 - x^2/2 + x^4/24 - x^6/720 + x^8/40320 : ℝ) : ℂ) +
         ((x - x^3/6 + x^5/120 - x^7/5040 + x^9/362880 : ℝ) : ℂ) * Complex.I)) := by
    rw [← him]
    exact Complex.abs_im_le_abs _
  refine key.trans (hb.trans ?_)
  rw [Complex.abs.map_mul, Complex.abs_I, mul_one, Complex.abs_ofReal]
  norm_num [Nat.factorial]
  rw [mul_comm]

theorem misA_le_of_trace_le {d1 d2 : Matrix (Fin 3) (Fin 3) ℝ}
    (h : d2.trace ≤ d1.trace) :
    misorientation_angle_from_delta d1 ≤ misorientation_angle_from_delta d2 :=
  (misA_le_misA_iff d1 d2).2 (clip_mono (by linarith))

theorem misA_lt_of_trace_lt {d1 d2 : Matrix (Fin 3) (Fin 3) ℝ}
    (h : d2.trace < d1.trace) (h1 : -1 < (d1.trace - 1)/2) (h2 : (d1.trace - 1)/2 ≤ 1) :
    misorientation_angle_from_delta d1 < misorientation_angle_from_delta d2 := by
  rw [misA_lt_misA_iff, clip_of_mem h1.le h2]
  unfold clip
  rcases le_or_lt ((d2.trace - 1)/2) (-1) with hc | hc
  · have hmax : max (-1 : ℝ) (min 1 ((d2.trace - 1)/2)) = -1 :=
      max_eq_left ((min_le_right _ _).trans hc)
    rw [hmax]
    exact h1
  · rw [min_eq_right (by linarith), max_eq_right (by linarith)]
    linarith

theorem smul_pair_delta (s1 s2 A B : T3) (a b : ℝ) :
    (toMat s1 * (a • toMat A)) * (toMat s2 * (b • toMat B))ᵀ =
      (a * b) • toMat ((s1.mul A).mul ((s2.mul B).tr)) := by
  rw [Matrix.mul_smul, Matrix.mul_smul, Matrix.transpose_smul, Matrix.mul_smul,
    Matrix.smul_mul, smul_smul, mul_comm b a, ← toMat_mul, ← toMat_mul, ← toMat_tr,
    ← toMat_mul]

theorem trace_smul_toMat (c : ℝ) (M : T3) : (c • toMat M).trace = c * (M.tra : ℝ) := by
  rw [Matrix.trace_smul, trace_toMat]
  rfl

theorem argminList_eq_start (f : T3 → ℝ) :
    ∀ (l : List T3) (b : T3), (∀ x ∈ l, ¬ f x < f b) → argminList f l b = b := by
  intro l
  induction l with
  | nil => intro b _; rfl
  | cons y l ih =>
    intro b h
    rw [argminList, if_neg (h y (List.mem_cons_self _ _))]
    exact ih b fun x hx => h x (List.mem_cons_of_mem _ hx)

theorem argminList_pin (f : T3 → ℝ) (sS : T3) :
    ∀ (l : List T3) (b : T3), sS ∈ l → f sS < f b →
      (∀ x ∈ l, x ≠ sS → f sS < f x) → argminList f l b = sS := by
  intro l
  induction l with
  | nil => intro b h; cases h
  | cons y l ih =>
    intro b hmem hb hothers
    rw [argminList]
    by_cases hys : y = sS
    · subst hys
      rw [if_pos hb]
      apply argminList_eq_start
      intro x hx
      by_cases hxs : x = y
      · rw [hxs]
        exact lt_irrefl _
      · exact not_lt.2 (hothers x (List.mem_cons_of_mem _ hx) hxs).le
    · have hmem' : sS ∈ l := by
        rcases List.mem_cons.1 hmem with h | h
        · exact absurd h.symm hys
        · exact h
      have hbnew : f sS < f (if f y < f b then y else b) := by
        split
        · exact hothers y (List.mem_cons_self _ _) hys
        · exact hb
      exact ih _ hmem' hbnew fun x hx hxs => hothers x (List.mem_cons_of_mem _ hx) hxs

/-- If no symmetry operator strictly improves the angle, the fundamental
zone reduction keeps the orientation unchanged (scaled-matrix form). -/
theorem move_to_FZ_id (A : T3) (s : ℝ) (hs : 0 < s)
    (h : ∀ op ∈ cubicOps, (op.mul A).tra ≤ A.tra) :
    move_to_FZ (s • toMat A) Symmetry.cubic = s • toMat A := by
  unfold move_to_FZ
  rw [argminList_eq_start, toMat_one, one_mul]
  intro x hx
  rw [not_lt, toMat_one, one_mul]
  apply misA_le_of_trace_le
  rw [Matrix.mul_smul, ← toMat_mul, trace_smul_toMat, trace_smul_toMat]
  have hc : ((x.mul A).tra : ℝ) ≤ (A.tra : ℝ) := by exact_mod_cast h x hx
  exact mul_le_mul_of_nonneg_left hc hs.le

set_option maxRecDepth 10000 in
/-- If one symmetry operator strictly dominates all others (and the
identity), the fundamental zone reduction selects exactly that operator
(scaled-matrix form). -/
theorem move_to_FZ_pin (A : T3) (sc : ℝ) (hs : 0 < sc) (sS : T3) (hmem : sS ∈ cubicOps)
    (hone : A.tra < (sS.mul A).tra)
    (hothers : ∀ x ∈ cubicOps, x ≠ sS → (x.mul A).tra < (sS.mul A).tra)
    (hr1 : -1 < (sc * ((sS.mul A).tra : ℝ) - 1)/2)
    (hr2 : (sc * ((sS.mul A).tra : ℝ) - 1)/2 ≤ 1) :
    move_to_FZ (sc • toMat A) Symmetry.cubic = toMat sS * (sc • toMat A) := by
  unfold move_to_FZ
  have htr : ∀ y : T3, (toMat y * (sc • toMat A)).trace = sc * ((y.mul A).tra : ℝ) := by
    intro y
    rw [Matrix.mul_smul, ← toMat_mul, trace_smul_toMat]
  have hpin : argminList
      (fun s => misorientation_angle_from_delta (toMat s * (sc • toMat A)))
      Symmetry.cubic.symmetry_operators T3.one = sS := by
    apply argminList_pin _ _ _ _ hmem
    · apply misA_lt_of_trace_lt
      · rw [toMat_one, one_mul, htr]
        have hc : ((A.tra : ℝ)) < ((sS.mul A).tra : ℝ) := by exact_mod_cast hone
        have : (1 : Matrix (Fin 3) (Fin 3) ℝ) * (sc • toMat A) = sc • toMat A := one_mul _
        rw [show ((sc • toMat A : Matrix (Fin 3) (Fin 3) ℝ)).trace =
          sc * ((T3.one.mul A).tra : ℝ) from by
            rw [← htr, toMat_one, one_mul]]
        have hone' : ((T3.one.mul A).tra : ℝ) < ((sS.mul A).tra : ℝ) := by
          have honemul : T3.one.mul A = A := by
            unfold T3.mul T3.one
            cases A
            norm_num
          rw [honemul]
          exact_mod_cast hone
        exact mul_lt_mul_of_pos_left hone' hs
      · rwa [htr]
      · rwa [htr]
    · intro x hx hxs
      apply misA_lt_of_trace_lt
      · rw [htr, htr]
        have hc : ((x.mul A).tra : ℝ) < ((sS.mul A).tra : ℝ) := by
          exact_mod_cast hothers x hx hxs
        exact mul_lt_mul_of_pos_left hc hs
      · rwa [htr]
      · rwa [htr]
  rw [hpin]

set_option maxRecDepth 100000 in
/-- Moving both orientations to the fundamental zone can never report a
misorientation angle smaller than the disorientation: the FZ delta is one
of the enumerated pair deltas. -/
theorem dis_le_FZ_delta (g1 g2 : Matrix (Fin 3) (Fin 3) ℝ) :
    (disorientation g1 g2 Symmetry.cubic).1 ≤
      misorientation_angle_from_delta
        (move_to_FZ g1 Symmetry.cubic * (move_to_FZ g2 Symmetry.cubic)ᵀ) := by
  have h1 : ∀ g : Matrix (Fin 3) (Fin 3) ℝ, argminList
      (fun s => misorientation_angle_from_delta (toMat s * g))
      Symmetry.cubic.symmetry_operators T3.one ∈ Symmetry.cubic.symmetry_operators := by
    intro g
    rcases argminList_mem_or (fun s => misorientation_angle_from_delta (toMat s * g))
      Symmetry.cubic.symmetry_operators T3.one with h | h
    · rw [h]; exact one_mem_ops _
    · exact h
  have hfst : (disorientation g1 g2 Symmetry.cubic).1 =
      listMin ((deltasOf g1 g2 Symmetry.cubic).map misorientation_angle_from_delta) := rfl
  rw [hfst]
  unfold move_to_FZ
  exact listMin_le_mem _ _ (List.mem_map_of_mem _
    (mem_deltasOf (List.pair_mem_product.2 ⟨h1 g1, h1 g2⟩) g1 g2))

/-- First rational test orientation for the C8 counterexample (a rotation
matrix times 725). -/
def tA : T3 := ⟨600, 211, 348, 75, 552, -464, -400, 420, 435⟩

/-- Second rational test orientation for the C8 counterexample (a rotation
matrix times 53). -/
def tB : T3 := ⟨53, 0, 0, 0, 45, 28, 0, -28, 45⟩

noncomputable def gA8 : Matrix (Fin 3) (Fin 3) ℝ := ((725:ℝ)⁻¹) • toMat tA

noncomputable def gB8 : Matrix (Fin 3) (Fin 3) ℝ := ((53:ℝ)⁻¹) • toMat tB

/-- The symmetry operator witnessing reducibility of the counterexample
pair. -/
def op4 : T3 := ⟨1, 0, 0, 0, 0, -1, 0, 1, 0⟩

set_option maxRecDepth 100000 in
theorem gA8_FZ_traces : ∀ op ∈ cubicOps, (op.mul tA).tra ≤ tA.tra := by decide

set_option maxRecDepth 100000 in
theorem gB8_FZ_traces : ∀ op ∈ cubicOps, (op.mul tB).tra ≤ tB.tra := by decide

set_option maxRecDepth 100000 in
/-- C8 counterexample: for the two explicit rational orientations, both
already in the cubic fundamental zone, the misorientation angle of the
delta matrix of their fundamental-zone reductions differs from the
disorientation (the delta angle is 60.9 degrees while symmetry reduces the
disorientation to 37.7 degrees). -/
theorem claim_C8_counterexample :
    misorientation_angle_from_delta
        (move_to_FZ gA8 Symmetry.cubic * (move_to_FZ gB8 Symmetry.cubic)ᵀ) ≠
      (disorientation gA8 gB8 Symmetry.cubic).1 := by
  have hA : move_to_FZ gA8 Symmetry.cubic = gA8 :=
    move_to_FZ_id tA _ (by norm_num) gA8_FZ_traces
  have hB : move_to_FZ gB8 Symmetry.cubic = gB8 :=
    move_to_FZ_id tB _ (by norm_num) gB8_FZ_traces
  rw [hA, hB]
  have htra0 : (tA.mul tB.tr).tra = 51463 := by decide
  have hd0 : (gA8 * gB8ᵀ).trace = (725:ℝ)⁻¹ * ((53:ℝ)⁻¹ * 51463) := by
    unfold gA8 gB8
    rw [Matrix.transpose_smul, Matrix.mul_smul, Matrix.smul_mul, smul_smul,
      ← toMat_tr, ← toMat_mul, trace_smul_toMat, htra0]
    push_cast
    ring
  have htrab : ((T3.one.mul tA).mul ((op4.mul tB).tr)).tra = 99216 := by decide
  have hbest : ((toMat T3.one * gA8) * (toMat op4 * gB8)ᵀ).trace =
      ((725:ℝ)⁻¹ * (53:ℝ)⁻¹) * 99216 := by
    unfold gA8 gB8
    rw [smul_pair_delta, trace_smul_toMat, htrab]
    push_cast
    ring
  have hfst : (disorientation gA8 gB8 Symmetry.cubic).1 =
      listMin ((deltasOf gA8 gB8 Symmetry.cubic).map misorientation_angle_from_delta) := rfl
  have hpairmem : (T3.one, op4) ∈ List.product Symmetry.cubic.symmetry_operators
      Symmetry.cubic.symmetry_operators := by decide
  have hle : (disorientation gA8 gB8 Symmetry.cubic).1 ≤
      misorientation_angle_from_delta ((toMat T3.one * gA8) * (toMat op4 * gB8)ᵀ) := by
    rw [hfst]
    exact listMin_le_mem _ _ (List.mem_map_of_mem _ (mem_deltasOf hpairmem gA8 gB8))
  have hlt : misorientation_angle_from_delta ((toMat T3.one * gA8) * (toMat op4 * gB8)ᵀ) <
      misorientation_angle_from_delta (gA8 * gB8ᵀ) := by
    apply misA_lt_of_trace_lt
    · rw [hd0, hbest]
      norm_num
    · rw [hbest]
      norm_num
    · rw [hbest]
      norm_num
  exact ne_of_gt (lt_of_le_of_lt hle hlt)

/-- The first test orientation matrix of `test_small_disorientation`,
times 10^8. -/
def tM1 : T3 := ⟨-3454188, 5599919, -99783313, -1223192, -99837784, -5560633,
  -99932839, 1028467, 3517083⟩

/-- The second test orientation matrix of `test_small_disorientation`,
times 10^8. -/
def tM2 : T3 := ⟨-3807341, -6932796, -99686712, -2341240, -99725469, 7024911,
  -99900064, 2601367, 3634576⟩

/-- The symmetry operator that both test orientations select in their
fundamental-zone reduction. -/
def op23 : T3 := ⟨0, 0, -1, 0, -1, 0, -1, 0, 0⟩

noncomputable def gRef : Matrix (Fin 3) (Fin 3) ℝ := ((100000000:ℝ)⁻¹) • toMat tM1

noncomputable def g12 : Matrix (Fin 3) (Fin 3) ℝ := ((100000000:ℝ)⁻¹) • toMat tM2

set_option maxRecDepth 1000000 in
theorem pairs_bound_M : ∀ p ∈ List.product cubicOps cubicOps,
    ((p.1.mul tM1).mul ((p.2.mul tM2).tr)).tra ≤ 29840324765795446 := by decide

set_option maxRecDepth 100000 in
theorem m1_pin : ∀ x ∈ cubicOps, x ≠ op23 → (x.mul tM1).tra < (op23.mul tM1).tra := by
  decide

set_option maxRecDepth 100000 in
theorem m2_pin : ∀ x ∈ cubicOps, x ≠ op23 → (x.mul tM2).tra < (op23.mul tM2).tra := by
  decide

/-- The clamped cosine argument of the small-disorientation test case. -/
noncomputable def cwR : ℝ := 9920162382897723 / 10000000000000000

theorem lt_arccos_of_lt_cos {a x : ℝ} (ha1 : 0 ≤ a) (ha2 : a ≤ π) (hx : -1 ≤ x)
    (h : x < Real.cos a) : a < Real.arccos x := by
  have := Real.strictAntiOn_arccos
    (Set.mem_Icc.2 ⟨hx, h.le.trans (Real.cos_le_one a)⟩)
    (Set.mem_Icc.2 ⟨Real.neg_one_le_cos a, Real.cos_le_one a⟩) h
  rwa [Real.arccos_cos ha1 ha2] at this

theorem arccos_lt_of_cos_lt {b x : ℝ} (hb1 : 0 ≤ b) (hb2 : b ≤ π) (hx : x ≤ 1)
    (h : Real.cos b < x) : Real.arccos x < b := by
  have := Real.strictAntiOn_arccos
    (Set.mem_Icc.2 ⟨Real.neg_one_le_cos b, Real.cos_le_one b⟩)
    (Set.mem_Icc.2 ⟨(Real.neg_one_le_cos b).trans h.le, hx⟩) h
  rwa [Real.arccos_cos hb1 hb2] at this

theorem arccos_cwR_lb : (0.12635 : ℝ) < Real.arccos cwR := by
  have ht := cos_taylor10 0.12635 (by rw [abs_of_pos] <;> norm_num)
  rcases abs_le.1 ht with ⟨hlo, _⟩
  apply lt_arccos_of_lt_cos (by norm_num) (by linarith [Real.pi_gt_d6]) (by unfold cwR; norm_num)
  unfold cwR
  rw [abs_of_pos (by norm_num : (0:ℝ) < 0.12635)] at hlo
  norm_num at hlo ⊢
  linarith

theorem arccos_cwR_ub : Real.arccos cwR < 0.126448 := by
  have ht := cos_taylor10 0.126448 (by rw [abs_of_pos] <;> norm_num)
  rcases abs_le.1 ht with ⟨_, hhi⟩
  apply arccos_lt_of_cos_lt (by norm_num) (by linarith [Real.pi_gt_d6]) (by unfold cwR; norm_num)
  unfold cwR
  rw [abs_of_pos (by norm_num : (0:ℝ) < 0.126448)] at hhi
  norm_num at hhi ⊢
  linarith

theorem arccos_cwR_deg_near : |Real.arccos cwR * (180/π) - 7.24| < 0.005 := by
  have hpi := Real.pi_pos
  have hpi1 : (3.141592:ℝ) < π := Real.pi_gt_d6
  have hpi2 : π < 3.141593 := Real.pi_lt_d6
  have hlb := arccos_cwR_lb
  have hub := arccos_cwR_ub
  have hform : Real.arccos cwR * (180/π) = Real.arccos cwR * 180/π := by ring
  rw [abs_lt, hform]
  have h1 : (7.235:ℝ) < Real.arccos cwR * 180/π := by
    rw [lt_div_iff hpi]; nlinarith
  have h2 : Real.arccos cwR * 180/π < 7.245 := by
    rw [div_lt_iff hpi]; nlinarith
  constructor <;> linarith

set_option maxRecDepth 100000 in
theorem op23_mem : op23 ∈ cubicOps := by decide

set_option maxRecDepth 100000 in
theorem m1_gain : tM1.tra < (op23.mul tM1).tra := by decide

set_option maxRecDepth 100000 in
theorem m2_gain : tM2.tra < (op23.mul tM2).tra := by decide

set_option maxRecDepth 100000 in
theorem op23_trace_M1 : (op23.mul tM1).tra = 299553936 := by decide

set_option maxRecDepth 100000 in
theorem op23_trace_M2 : (op23.mul tM2).tra = 299312245 := by decide

set_option maxRecDepth 1000000 in
theorem fz_pair_trace :
    ((op23.mul tM1).mul ((op23.mul tM2).tr)).tra = 29840324765795446 := by decide

theorem move_to_FZ_gRef : move_to_FZ gRef Symmetry.cubic = toMat op23 * gRef := by
  unfold gRef
  exact move_to_FZ_pin tM1 _ (by norm_num) op23 op23_mem m1_gain m1_pin
    (by rw [op23_trace_M1]; push_cast; norm_num)
    (by rw [op23_trace_M1]; push_cast; norm_num)

theorem move_to_FZ_g12 : move_to_FZ g12 Symmetry.cubic = toMat op23 * g12 := by
  unfold g12
  exact move_to_FZ_pin tM2 _ (by norm_num) op23 op23_mem m2_gain m2_pin
    (by rw [op23_trace_M2]; push_cast; norm_num)
    (by rw [op23_trace_M2]; push_cast; norm_num)

theorem op23_delta_angle :
    misorientation_angle_from_delta ((toMat op23 * gRef) * (toMat op23 * g12)ᵀ) =
      Real.arccos cwR := by
  unfold misorientation_angle_from_delta gRef g12
  rw [smul_pair_delta, trace_smul_toMat, fz_pair_trace]
  have harg : ((100000000:ℝ)⁻¹ * (100000000:ℝ)⁻¹ * ((29840324765795446 : ℤ) : ℝ) - 1) / 2 =
      cwR := by
    unfold cwR
    push_cast
    norm_num
  rw [harg, clip_of_mem (by unfold cwR; norm_num) (by unfold cwR; norm_num)]

theorem fz_delta_angle :
    misorientation_angle_from_delta
        (move_to_FZ gRef Symmetry.cubic * (move_to_FZ g12 Symmetry.cubic)ᵀ) =
      Real.arccos cwR := by
  rw [move_to_FZ_gRef, move_to_FZ_g12]
  exact op23_delta_angle

set_option maxRecDepth 1000000 in
theorem dis_value : (disorientation gRef g12 Symmetry.cubic).1 = Real.arccos cwR := by
  obtain ⟨⟨d, hdmem, hdis⟩, hlow⟩ := disorientation_min gRef g12 Symmetry.cubic
  have hfst : (disorientation gRef g12 Symmetry.cubic).1 =
      misorientation_angle_from_delta d := by rw [hdis]
  apply le_antisymm
  · have hpm : (op23, op23) ∈ List.product Symmetry.cubic.symmetry_operators
        Symmetry.cubic.symmetry_operators := by decide
    have hle := hlow _ (mem_deltasOf hpm gRef g12)
    rwa [op23_delta_angle] at hle
  · rw [hfst]
    unfold deltasOf at hdmem
    rcases List.mem_map.1 hdmem with ⟨p, hp, rfl⟩
    rw [← op23_delta_angle]
    apply misA_le_of_trace_le
    unfold gRef g12
    rw [smul_pair_delta, trace_smul_toMat, smul_pair_delta, trace_smul_toMat, fz_pair_trace]
    have hb : ((p.1.mul tM1).mul ((p.2.mul tM2).tr)).tra ≤ 29840324765795446 :=
      pairs_bound_M p hp
    have hb' : (((p.1.mul tM1).mul ((p.2.mul tM2).tr)).tra : ℝ) ≤
        ((29840324765795446 : ℤ) : ℝ) := by exact_mod_cast hb
    exact mul_le_mul_of_nonneg_left hb' (by norm_num)

/-- The cross-product matrix of an axis vector, as used by the Rodrigues
rotation formula. -/
noncomputable def crossMat (n1 n2 n3 : ℝ) : Matrix (Fin 3) (Fin 3) ℝ :=
  !![0, -n3, n2; n3, 0, -n1; -n2, n1, 0]

/-- Modelled from the spec: `rodriguesToMatrix(r)` with `r = tan(angle/2) *
axis`; the rotation angle is `2*atan(norm r)`, the axis is `r` normalised,
and the matrix is built by the standard Rodrigues rotation formula
`I + sin(theta)*Omega + (1-cos(theta))*Omega^2`; the zero vector maps to
the identity.  This is `Orientation.Rodrigues2OrientationMatrix` /
`Orientation.from_rodrigues`. -/
noncomputable def from_rodrigues (r1 r2 r3 : ℝ) : Matrix (Fin 3) (Fin 3) ℝ :=
  if r1 ^ 2 + r2 ^ 2 + r3 ^ 2 = 0 then 1 else
    1 + Real.sin (2 * Real.arctan (√(r1 ^ 2 + r2 ^ 2 + r3 ^ 2))) •
        crossMat (r1 / √(r1 ^ 2 + r2 ^ 2 + r3 ^ 2)) (r2 / √(r1 ^ 2 + r2 ^ 2 + r3 ^ 2))
          (r3 / √(r1 ^ 2 + r2 ^ 2 + r3 ^ 2)) +
      (1 - Real.cos (2 * Real.arctan (√(r1 ^ 2 + r2 ^ 2 + r3 ^ 2)))) •
        (crossMat (r1 / √(r1 ^ 2 + r2 ^ 2 + r3 ^ 2)) (r2 / √(r1 ^ 2 + r2 ^ 2 + r3 ^ 2))
            (r3 / √(r1 ^ 2 + r2 ^ 2 + r3 ^ 2)) *
          crossMat (r1 / √(r1 ^ 2 + r2 ^ 2 + r3 ^ 2)) (r2 / √(r1 ^ 2 + r2 ^ 2 + r3 ^ 2))
            (r3 / √(r1 ^ 2 + r2 ^ 2 + r3 ^ 2)))

/-- The Rodrigues formula for a unit axis, in half-angle-tangent closed
form. -/
theorem rodrigues_unit (n1 n2 n3 t : ℝ) (hn : n1 ^ 2 + n2 ^ 2 + n3 ^ 2 = 1) :
    (1 : Matrix (Fin 3) (Fin 3) ℝ) + Real.sin (2 * Real.arctan t) • crossMat n1 n2 n3 +
      (1 - Real.cos (2 * Real.arctan t)) • (crossMat n1 n2 n3 * crossMat n1 n2 n3) =
    ((1 + t ^ 2)⁻¹) •
      !![1 + t ^ 2 * (n1 ^ 2 - n2 ^ 2 - n3 ^ 2), 2 * t ^ 2 * n1 * n2 - 2 * t * n3,
           2 * t ^ 2 * n1 * n3 + 2 * t * n2;
         2 * t ^ 2 * n1 * n2 + 2 * t * n3, 1 + t ^ 2 * (-n1 ^ 2 + n2 ^ 2 - n3 ^ 2),
           2 * t ^ 2 * n2 * n3 - 2 * t * n1;
         2 * t ^ 2 * n1 * n3 - 2 * t * n2, 2 * t ^ 2 * n2 * n3 + 2 * t * n1,
           1 + t ^ 2 * (-n1 ^ 2 - n2 ^ 2 + n3 ^ 2)] := by
  have h1t : (0:ℝ) < 1 + t ^ 2 := by positivity
  rw [cos_two_arctan, sin_two_arctan]
  ext i j
  fin_cases i <;> fin_cases j <;>
    simp [crossMat, Matrix.mul_apply, Fin.sum_univ_three, Matrix.one_apply] <;>
    field_simp <;>
    (first
      | ring1
      | linear_combination (-(t ^ 2)) * hn)

/-- Closed rational form of the Rodrigues conversion for a nonzero
vector. -/
theorem rodrigues_closed (r1 r2 r3 : ℝ) (h : r1 ^ 2 + r2 ^ 2 + r3 ^ 2 ≠ 0) :
    from_rodrigues r1 r2 r3 = ((1 + (r1 ^ 2 + r2 ^ 2 + r3 ^ 2))⁻¹) •
      !![1 + r1 ^ 2 - r2 ^ 2 - r3 ^ 2, 2 * (r1 * r2 - r3), 2 * (r1 * r3 + r2);
         2 * (r1 * r2 + r3), 1 - r1 ^ 2 + r2 ^ 2 - r3 ^ 2, 2 * (r2 * r3 - r1);
         2 * (r1 * r3 - r2), 2 * (r2 * r3 + r1), 1 - r1 ^ 2 - r2 ^ 2 + r3 ^ 2] := by
  have hnn : (0:ℝ) ≤ r1 ^ 2 + r2 ^ 2 + r3 ^ 2 := by positivity
  have hpos : (0:ℝ) < r1 ^ 2 + r2 ^ 2 + r3 ^ 2 := lt_of_le_of_ne hnn (Ne.symm h)
  have hu2 : (√(r1 ^ 2 + r2 ^ 2 + r3 ^ 2)) ^ 2 = r1 ^ 2 + r2 ^ 2 + r3 ^ 2 :=
    Real.sq_sqrt hnn
  have hupos : 0 < √(r1 ^ 2 + r2 ^ 2 + r3 ^ 2) := Real.sqrt_pos.2 hpos
  have hune : √(r1 ^ 2 + r2 ^ 2 + r3 ^ 2) ≠ 0 := ne_of_gt hupos
  have hn : (r1 / √(r1 ^ 2 + r2 ^ 2 + r3 ^ 2)) ^ 2 + (r2 / √(r1 ^ 2 + r2 ^ 2 + r3 ^ 2)) ^ 2 +
      (r3 / √(r1 ^ 2 + r2 ^ 2 + r3 ^ 2)) ^ 2 = 1 := by
    rw [div_pow, div_pow, div_pow, div_add_div_same, div_add_div_same, hu2]
    exact div_self h
  unfold from_rodrigues
  rw [if_neg h]
  rw [rodrigues_unit _ _ _ _ hn, hu2]
  congr 1
  ext i j
  fin_cases i <;> fin_cases j <;>
    simp <;> field_simp <;> ring

/-- The test Rodrigues vector (0.1449, -0.0281, 0.0616) as an integer
orientation matrix over the common denominator 102558018. -/
def tRod : T3 := ⟨101641184, -13134338, -3834832, 11505662, 97599904, -29326192,
  7405168, 28633808, 98200894⟩

/-- Concrete rational evaluation of the Rodrigues conversion at the test
vector. -/
theorem from_rodrigues_conc :
    from_rodrigues 0.1449 (-0.0281) 0.0616 = ((102558018:ℝ)⁻¹) • toMat tRod := by
  rw [rodrigues_closed _ _ _ (by norm_num)]
  have hs : ((1:ℝ) + ((0.1449:ℝ) ^ 2 + (-0.0281:ℝ) ^ 2 + (0.0616:ℝ) ^ 2)) =
      102558018 / 100000000 := by norm_num
  rw [hs]
  ext i j
  fin_cases i <;> fin_cases j <;>
    (simp [toMat, tRod, Matrix.smul_apply]; norm_num)

/-- A scaled integer orientation whose trace dominates all its cubic
symmetry images lies in the fundamental zone. -/
theorem inFZ_of_traces (A : T3) (s : ℝ) (hs : 0 < s)
    (h : ∀ op ∈ cubicOps, (op.mul A).tra ≤ A.tra) :
    inFZ (s • toMat A) Symmetry.cubic := by
  intro op hop
  apply misA_le_of_trace_le
  rw [Matrix.mul_smul, ← toMat_mul, trace_smul_toMat, trace_smul_toMat]
  have hc : ((op.mul A).tra : ℝ) ≤ (A.tra : ℝ) := by exact_mod_cast h op hop
  exact mul_le_mul_of_nonneg_left hc hs.le

set_option maxRecDepth 100000 in
theorem tRod_FZ : ∀ op ∈ cubicOps, (op.mul tRod).tra ≤ tRod.tra := by decide

/-- The test Rodrigues orientation is inside the cubic fundamental
zone. -/
theorem rod_inFZ : inFZ (from_rodrigues 0.1449 (-0.0281) 0.0616) Symmetry.cubic := by
  rw [from_rodrigues_conc]
  exact inFZ_of_traces tRod _ (by norm_num) tRod_FZ

theorem radA_lb : (0.207694180987:ℝ) ≤ radians 11.9 := by
  unfold radians
  linarith [Real.pi_gt_d20]

theorem radA_ub : radians 11.9 ≤ (0.207694180988:ℝ) := by
  unfold radians
  linarith [Real.pi_lt_d20]

theorem cosA_lb : (0.9785089851:ℝ) ≤ Real.cos (radians 11.9) := by
  have hmono := Real.cos_le_cos_of_nonneg_of_le_pi
    (show (0:ℝ) ≤ radians 11.9 from by linarith [radA_lb])
    (show (0.207694180988:ℝ) ≤ π from by linarith [Real.pi_gt_d6]) radA_ub
  have ht := cos_taylor10 0.207694180988 (by rw [abs_of_pos] <;> norm_num)
  rw [abs_of_pos (by norm_num : (0:ℝ) < 0.207694180988)] at ht
  rcases abs_le.1 ht with ⟨hlo, _⟩
  norm_num at hlo ⊢
  linarith

theorem cosA_ub : Real.cos (radians 11.9) ≤ (0.9785089852:ℝ) := by
  have hmono := Real.cos_le_cos_of_nonneg_of_le_pi
    (show (0:ℝ) ≤ (0.207694180987:ℝ) from by norm_num)
    (show radians 11.9 ≤ π from by linarith [radA_ub, Real.pi_gt_d6]) radA_lb
  have ht := cos_taylor10 0.207694180987 (by rw [abs_of_pos] <;> norm_num)
  rw [abs_of_pos (by norm_num : (0:ℝ) < 0.207694180987)] at ht
  rcases abs_le.1 ht with ⟨_, hhi⟩
  norm_num at hhi ⊢
  linarith

theorem sinA_lb : (0.2062041853:ℝ) ≤ Real.sin (radians 11.9) := by
  have hmono : Real.sin (0.207694180987:ℝ) ≤ Real.sin (radians 11.9) := by
    apply Real.strictMonoOn_sin.monotoneOn ?_ ?_ radA_lb
    · constructor <;> linarith [Real.pi_gt_d6]
    · constructor <;> linarith [radA_lb, radA_ub, Real.pi_gt_d6]
  have ht := sin_taylor10 0.207694180987 (by rw [abs_of_pos] <;> norm_num)
  rw [abs_of_pos (by norm_num : (0:ℝ) < 0.207694180987)] at ht
  rcases abs_le.1 ht with ⟨hlo, _⟩
  norm_num at hlo ⊢
  linarith

theorem sinA_ub : Real.sin (radians 11.9) ≤ (0.2062041854:ℝ) := by
  have hmono : Real.sin (radians 11.9) ≤ Real.sin (0.207694180988:ℝ) := by
    apply Real.strictMonoOn_sin.monotoneOn ?_ ?_ radA_ub
    · constructor <;> linarith [radA_lb, radA_ub, Real.pi_gt_d6]
    · constructor <;> linarith [Real.pi_gt_d6]
  have ht := sin_taylor10 0.207694180988 (by rw [abs_of_pos] <;> norm_num)
  rw [abs_of_pos (by norm_num : (0:ℝ) < 0.207694180988)] at ht
  rcases abs_le.1 ht with ⟨_, hhi⟩
  norm_num at hhi ⊢
  linarith

theorem radB_lb : (0.35081117965:ℝ) ≤ radians 20.1 := by
  unfold radians
  linarith [Real.pi_gt_d20]

theorem radB_ub : radians 20.1 ≤ (0.350811179651:ℝ) := by
  unfold radians
  linarith [Real.pi_lt_d20]

theorem cosB_lb : (0.939094252:ℝ) ≤ Real.cos (radians 20.1) := by
  have hmono := Real.cos_le_cos_of_nonneg_of_le_pi
    (show (0:ℝ) ≤ radians 20.1 from by linarith [radB_lb])
    (show (0.350811179651:ℝ) ≤ π from by linarith [Real.pi_gt_d6]) radB_ub
  have ht := cos_taylor10 0.350811179651 (by rw [abs_of_pos] <;> norm_num)
  rw [abs_of_pos (by norm_num : (0:ℝ) < 0.350811179651)] at ht
  rcases abs_le.1 ht with ⟨hlo, _⟩
  norm_num at hlo ⊢
  linarith

theorem cosB_ub : Real.cos (radians 20.1) ≤ (0.9390942522:ℝ) := by
  have hmono := Real.cos_le_cos_of_nonneg_of_le_pi
    (show (0:ℝ) ≤ (0.35081117965:ℝ) from by norm_num)
    (show radians 20.1 ≤ π from by linarith [radB_ub, Real.pi_gt_d6]) radB_lb
  have ht := cos_taylor10 0.35081117965 (by rw [abs_of_pos] <;> norm_num)
  rw [abs_of_pos (by norm_num : (0:ℝ) < 0.35081117965)] at ht
  rcases abs_le.1 ht with ⟨_, hhi⟩
  norm_num at hhi ⊢
  linarith

theorem sinB_lb : (0.3436596945:ℝ) ≤ Real.sin (radians 20.1) := by
  have hmono : Real.sin (0.35081117965:ℝ) ≤ Real.sin (radians 20.1) := by
    apply Real.strictMonoOn_sin.monotoneOn ?_ ?_ radB_lb
    · constructor <;> linarith [Real.pi_gt_d6]
    · constructor <;> linarith [radB_lb, radB_ub, Real.pi_gt_d6]
  have ht := sin_taylor10 0.35081117965 (by rw [abs_of_pos] <;> norm_num)
  rw [abs_of_pos (by norm_num : (0:ℝ) < 0.35081117965)] at ht
  rcases abs_le.1 ht with ⟨hlo, _⟩
  norm_num at hlo ⊢
  linarith

theorem sinB_ub : Real.sin (radians 20.1) ≤ (0.3436596946:ℝ) := by
  have hmono : Real.sin (radians 20.1) ≤ Real.sin (0.350811179651:ℝ) := by
    apply Real.strictMonoOn_sin.monotoneOn ?_ ?_ radB_ub
    · constructor <;> linarith [radB_lb, radB_ub, Real.pi_gt_d6]
    · constructor <;> linarith [Real.pi_gt_d6]
  have ht := sin_taylor10 0.350811179651 (by rw [abs_of_pos] <;> norm_num)
  rw [abs_of_pos (by norm_num : (0:ℝ) < 0.350811179651)] at ht
  rcases abs_le.1 ht with ⟨_, hhi⟩
  norm_num at hhi ⊢
  linarith

theorem radC_lb : (0.717330322569:ℝ) ≤ radians 41.1 := by
  unfold radians
  linarith [Real.pi_gt_d20]

theorem radC_ub : radians 41.1 ≤ (0.71733032257:ℝ) := by
  unfold radians
  linarith [Real.pi_lt_d20]

theorem cosC_lb : (0.7535633912:ℝ) ≤ Real.cos (radians 41.1) := by
  have hmono := Real.cos_le_cos_of_nonneg_of_le_pi
    (show (0:ℝ) ≤ radians 41.1 from by linarith [radC_lb])
    (show (0.71733032257:ℝ) ≤ π from by linarith [Real.pi_gt_d6]) radC_ub
  have ht := cos_taylor10 0.71733032257 (by rw [abs_of_pos] <;> norm_num)
  rw [abs_of_pos (by norm_num : (0:ℝ) < 0.71733032257)] at ht
  rcases abs_le.1 ht with ⟨hlo, _⟩
  norm_num at hlo ⊢
  linarith

theorem cosC_ub : Real.cos (radians 41.1) ≤ (0.7535634132:ℝ) := by
  have hmono := Real.cos_le_cos_of_nonneg_of_le_pi
    (show (0:ℝ) ≤ (0.717330322569:ℝ) from by norm_num)
    (show radians 41.1 ≤ π from by linarith [radC_ub, Real.pi_gt_d6]) radC_lb
  have ht := cos_taylor10 0.717330322569 (by rw [abs_of_pos] <;> norm_num)
  rw [abs_of_pos (by norm_num : (0:ℝ) < 0.717330322569)] at ht
  rcases abs_le.1 ht with ⟨_, hhi⟩
  norm_num at hhi ⊢
  linarith

theorem sinC_lb : (0.6573752355:ℝ) ≤ Real.sin (radians 41.1) := by
  have hmono : Real.sin (0.717330322569:ℝ) ≤ Real.sin (radians 41.1) := by
    apply Real.strictMonoOn_sin.monotoneOn ?_ ?_ radC_lb
    · constructor <;> linarith [Real.pi_gt_d6]
    · constructor <;> linarith [radC_lb, radC_ub, Real.pi_gt_d6]
  have ht := sin_taylor10 0.717330322569 (by rw [abs_of_pos] <;> norm_num)
  rw [abs_of_pos (by norm_num : (0:ℝ) < 0.717330322569)] at ht
  rcases abs_le.1 ht with ⟨hlo, _⟩
  norm_num at hlo ⊢
  linarith

theorem sinC_ub : Real.sin (radians 41.1) ≤ (0.6573752574:ℝ) := by
  have hmono : Real.sin (radians 41.1) ≤ Real.sin (0.71733032257:ℝ) := by
    apply Real.strictMonoOn_sin.monotoneOn ?_ ?_ radC_ub
    · constructor <;> linarith [radC_lb, radC_ub, Real.pi_gt_d6]
    · constructor <;> linarith [Real.pi_gt_d6]
  have ht := sin_taylor10 0.71733032257 (by rw [abs_of_pos] <;> norm_num)
  rw [abs_of_pos (by norm_num : (0:ℝ) < 0.71733032257)] at ht
  rcases abs_le.1 ht with ⟨_, hhi⟩
  norm_num at hhi ⊢
  linarith

/-- Interval product bound for nonnegative intervals. -/
theorem mul_mem_of_mem {a b la ua lb ub : ℝ} (ha1 : la ≤ a) (ha2 : a ≤ ua)
    (hb1 : lb ≤ b) (hb2 : b ≤ ub) (hla : 0 ≤ la) (hlb : 0 ≤ lb) :
    la * lb ≤ a * b ∧ a * b ≤ ua * ub := by
  constructor
  · exact mul_le_mul ha1 hb1 hlb (hla.trans ha1)
  · exact mul_le_mul ha2 hb2 (hlb.trans hb1) ((hla.trans ha1).trans ha2)

theorem cos_pi_add (x : ℝ) : Real.cos (π + x) = -Real.cos x := by
  rw [Real.cos_add, Real.cos_pi, Real.sin_pi]
  ring

theorem sin_pi_add (x : ℝ) : Real.sin (π + x) = -Real.sin x := by
  rw [Real.sin_add, Real.cos_pi, Real.sin_pi]
  ring

theorem rad1919 : radians 191.9 = π + radians 11.9 := by
  unfold radians
  ring

theorem rad699 : radians 69.9 = π / 2 - radians 20.1 := by
  unfold radians
  ring

theorem rad1389 : radians 138.9 = π - radians 41.1 := by
  unfold radians
  ring

/-- The test orientation matrix for Euler angles (191.9, 69.9, 138.9),
re-expressed through trigonometric values of the reduced angles 11.9, 20.1
and 41.1 degrees. -/
theorem g_eq : from_euler 191.9 69.9 138.9 =
    !![Real.cos (radians 11.9) * Real.cos (radians 41.1) +
         Real.sin (radians 11.9) * Real.sin (radians 41.1) * Real.sin (radians 20.1),
       Real.sin (radians 11.9) * Real.cos (radians 41.1) -
         Real.cos (radians 11.9) * Real.sin (radians 41.1) * Real.sin (radians 20.1),
       Real.sin (radians 41.1) * Real.cos (radians 20.1);
       Real.cos (radians 11.9) * Real.sin (radians 41.1) -
         Real.sin (radians 11.9) * Real.cos (radians 41.1) * Real.sin (radians 20.1),
       Real.sin (radians 11.9) * Real.sin (radians 41.1) +
         Real.cos (radians 11.9) * Real.cos (radians 41.1) * Real.sin (radians 20.1),
       -(Real.cos (radians 41.1) * Real.cos (radians 20.1));
       -(Real.sin (radians 11.9) * Real.cos (radians 20.1)),
       Real.cos (radians 11.9) * Real.cos (radians 20.1),
       Real.sin (radians 20.1)] := by
  rw [from_euler_apply, rad1919, rad699, rad1389, cos_pi_add, sin_pi_add,
    Real.cos_pi_div_two_sub, Real.sin_pi_div_two_sub, Real.cos_pi_sub, Real.sin_pi_sub]
  ext i j
  fin_cases i <;> fin_cases j <;> simp <;> ring

/-- Trace of a symmetry image, expanded into the nine matrix entries. -/
theorem trace_toMatMul (X : T3) (M : Matrix (Fin 3) (Fin 3) ℝ) :
    (toMat X * M).trace = (X.m00 : ℝ) * M 0 0 + X.m01 * M 1 0 + X.m02 * M 2 0 +
      (X.m10 : ℝ) * M 0 1 + X.m11 * M 1 1 + X.m12 * M 2 1 +
      (X.m20 : ℝ) * M 0 2 + X.m21 * M 1 2 + X.m22 * M 2 2 := by
  rw [Matrix.trace_fin_three]
  simp [Matrix.mul_apply, Fin.sum_univ_three, toMat]
  ring


theorem e00_bounds : (0.783952832:ℝ) ≤ Real.cos (radians 11.9) * Real.cos (radians 41.1) + Real.sin (radians 11.9) * Real.sin (radians 41.1) * Real.sin (radians 20.1) ∧ Real.cos (radians 11.9) * Real.cos (radians 41.1) + Real.sin (radians 11.9) * Real.sin (radians 41.1) * Real.sin (radians 20.1) ≤ (0.7839528553:ℝ) := by
  obtain ⟨h1a, h1b⟩ := mul_mem_of_mem cosA_lb cosA_ub cosC_lb cosC_ub (by norm_num) (by norm_num)
  obtain ⟨h2a, h2b⟩ := mul_mem_of_mem sinA_lb sinA_ub sinC_lb sinC_ub (by norm_num) (by norm_num)
  obtain ⟨h3a, h3b⟩ := mul_mem_of_mem h2a h2b sinB_lb sinB_ub (by norm_num) (by norm_num)
  constructor <;> nlinarith [h1a, h1b, h2a, h2b, h3a, h3b]

theorem e01_bounds : (-0.0656703473:ℝ) ≤ Real.sin (radians 11.9) * Real.cos (radians 41.1) - Real.cos (radians 11.9) * Real.sin (radians 41.1) * Real.sin (radians 20.1) ∧ Real.sin (radians 11.9) * Real.cos (radians 41.1) - Real.cos (radians 11.9) * Real.sin (radians 41.1) * Real.sin (radians 20.1) ≤ (-0.0656703351:ℝ) := by
  obtain ⟨h1a, h1b⟩ := mul_mem_of_mem sinA_lb sinA_ub cosC_lb cosC_ub (by norm_num) (by norm_num)
  obtain ⟨h2a, h2b⟩ := mul_mem_of_mem cosA_lb cosA_ub sinC_lb sinC_ub (by norm_num) (by norm_num)
  obtain ⟨h3a, h3b⟩ := mul_mem_of_mem h2a h2b sinB_lb sinB_ub (by norm_num) (by norm_num)
  constructor <;> nlinarith [h1a, h1b, h2a, h2b, h3a, h3b]

theorem e02_bounds : (0.617337305:ℝ) ≤ Real.sin (radians 41.1) * Real.cos (radians 20.1) ∧ Real.sin (radians 41.1) * Real.cos (radians 20.1) ≤ (0.6173373258:ℝ) := by
  obtain ⟨h1a, h1b⟩ := mul_mem_of_mem sinC_lb sinC_ub cosB_lb cosB_ub (by norm_num) (by norm_num)
  constructor <;> nlinarith [h1a, h1b]

theorem e10_bounds : (0.589847006:ℝ) ≤ Real.cos (radians 11.9) * Real.sin (radians 41.1) - Real.sin (radians 11.9) * Real.cos (radians 41.1) * Real.sin (radians 20.1) ∧ Real.cos (radians 11.9) * Real.sin (radians 41.1) - Real.sin (radians 11.9) * Real.cos (radians 41.1) * Real.sin (radians 20.1) ≤ (0.5898470292:ℝ) := by
  obtain ⟨h1a, h1b⟩ := mul_mem_of_mem cosA_lb cosA_ub sinC_lb sinC_ub (by norm_num) (by norm_num)
  obtain ⟨h2a, h2b⟩ := mul_mem_of_mem sinA_lb sinA_ub cosC_lb cosC_ub (by norm_num) (by norm_num)
  obtain ⟨h3a, h3b⟩ := mul_mem_of_mem h2a h2b sinB_lb sinB_ub (by norm_num) (by norm_num)
  constructor <;> nlinarith [h1a, h1b, h2a, h2b, h3a, h3b]

theorem e11_bounds : (0.3889573752:ℝ) ≤ Real.sin (radians 11.9) * Real.sin (radians 41.1) + Real.cos (radians 11.9) * Real.cos (radians 41.1) * Real.sin (radians 20.1) ∧ Real.sin (radians 11.9) * Real.sin (radians 41.1) + Real.cos (radians 11.9) * Real.cos (radians 41.1) * Real.sin (radians 20.1) ≤ (0.3889573873:ℝ) := by
  obtain ⟨h1a, h1b⟩ := mul_mem_of_mem sinA_lb sinA_ub sinC_lb sinC_ub (by norm_num) (by norm_num)
  obtain ⟨h2a, h2b⟩ := mul_mem_of_mem cosA_lb cosA_ub cosC_lb cosC_ub (by norm_num) (by norm_num)
  obtain ⟨h3a, h3b⟩ := mul_mem_of_mem h2a h2b sinB_lb sinB_ub (by norm_num) (by norm_num)
  constructor <;> nlinarith [h1a, h1b, h2a, h2b, h3a, h3b]

theorem e12_bounds : (-0.7076670701:ℝ) ≤ -(Real.cos (radians 41.1) * Real.cos (radians 20.1)) ∧ -(Real.cos (radians 41.1) * Real.cos (radians 20.1)) ≤ (-0.7076670491:ℝ) := by
  obtain ⟨h1a, h1b⟩ := mul_mem_of_mem cosC_lb cosC_ub cosB_lb cosB_ub (by norm_num) (by norm_num)
  constructor <;> nlinarith [h1a, h1b]

theorem e20_bounds : (-0.1936451653:ℝ) ≤ -(Real.sin (radians 11.9) * Real.cos (radians 20.1)) ∧ -(Real.sin (radians 11.9) * Real.cos (radians 20.1)) ≤ (-0.1936451651:ℝ) := by
  obtain ⟨h1a, h1b⟩ := mul_mem_of_mem sinA_lb sinA_ub cosB_lb cosB_ub (by norm_num) (by norm_num)
  constructor <;> nlinarith [h1a, h1b]

theorem e21_bounds : (0.9189121634:ℝ) ≤ Real.cos (radians 11.9) * Real.cos (radians 20.1) ∧ Real.cos (radians 11.9) * Real.cos (radians 20.1) ≤ (0.9189121638:ℝ) := by
  obtain ⟨h1a, h1b⟩ := mul_mem_of_mem cosA_lb cosA_ub cosB_lb cosB_ub (by norm_num) (by norm_num)
  constructor <;> nlinarith [h1a, h1b]

theorem e22_bounds : (0.3436596945:ℝ) ≤ Real.sin (radians 20.1) ∧ Real.sin (radians 20.1) ≤ (0.3436596946:ℝ) := by
  exact ⟨sinB_lb, sinB_ub⟩

/-- The symmetry operator selected by the fundamental-zone reduction of the
Euler (191.9, 69.9, 138.9) test orientation. -/
def opC7 : T3 := ⟨1, 0, 0, 0, 0, 1, 0, -1, 0⟩

set_option maxRecDepth 10000 in
/-- Real-matrix version of the fundamental-zone pinning lemma: if one
symmetry operator strictly dominates the identity and all other operators
in trace, the reduction selects exactly that operator. -/
theorem move_to_FZ_pin_real (g : Matrix (Fin 3) (Fin 3) ℝ) (sS : T3)
    (hmem : sS ∈ cubicOps)
    (hone : g.trace < (toMat sS * g).trace)
    (hothers : ∀ x ∈ cubicOps, x ≠ sS → (toMat x * g).trace < (toMat sS * g).trace)
    (hr1 : -1 < ((toMat sS * g).trace - 1) / 2)
    (hr2 : ((toMat sS * g).trace - 1) / 2 ≤ 1) :
    move_to_FZ g Symmetry.cubic = toMat sS * g := by
  unfold move_to_FZ
  have hpin : argminList
      (fun s => misorientation_angle_from_delta (toMat s * g))
      Symmetry.cubic.symmetry_operators T3.one = sS := by
    apply argminList_pin _ _ _ _ hmem
    · apply misA_lt_of_trace_lt
      · rwa [toMat_one, one_mul]
      · exact hr1
      · exact hr2
    · intro x hx hxs
      exact misA_lt_of_trace_lt (hothers x hx hxs) hr1 hr2
  rw [hpin]

set_option maxRecDepth 100000 in
theorem opC7_mem : opC7 ∈ cubicOps := by decide

set_option maxHeartbeats 3200000 in
theorem trace7_others : ∀ x ∈ cubicOps, x ≠ opC7 →
    (toMat x * from_euler 191.9 69.9 138.9).trace <
      (toMat opC7 * from_euler 191.9 69.9 138.9).trace := by
  rw [g_eq]
  intro x hx hne
  rw [trace_toMatMul, trace_toMatMul]
  fin_cases hx <;>
    first
    | exact absurd rfl hne
    | (simp [opC7]
       push_cast
       linarith [e00_bounds.1, e00_bounds.2, e01_bounds.1, e01_bounds.2,
         e02_bounds.1, e02_bounds.2, e10_bounds.1, e10_bounds.2,
         e11_bounds.1, e11_bounds.2, e12_bounds.1, e12_bounds.2,
         e20_bounds.1, e20_bounds.2, e21_bounds.1, e21_bounds.2,
         e22_bounds.1, e22_bounds.2])

theorem trace7_id : (from_euler 191.9 69.9 138.9).trace <
    (toMat opC7 * from_euler 191.9 69.9 138.9).trace := by
  rw [g_eq, trace_toMatMul, Matrix.trace_fin_three]
  simp [opC7]
  push_cast
  linarith [e00_bounds.1, e00_bounds.2, e11_bounds.1, e11_bounds.2,
    e22_bounds.1, e22_bounds.2, e12_bounds.1, e12_bounds.2,
    e21_bounds.1, e21_bounds.2]

theorem trace7_range :
    -1 < ((toMat opC7 * from_euler 191.9 69.9 138.9).trace - 1) / 2 ∧
      ((toMat opC7 * from_euler 191.9 69.9 138.9).trace - 1) / 2 ≤ 1 := by
  rw [g_eq, trace_toMatMul]
  simp [opC7]
  push_cast
  constructor <;>
    linarith [e00_bounds.1, e00_bounds.2, e12_bounds.1, e12_bounds.2,
      e21_bounds.1, e21_bounds.2]

/-- The Euler (191.9, 69.9, 138.9) orientation is not in the cubic
fundamental zone. -/
theorem g7_not_inFZ : ¬ inFZ (from_euler 191.9 69.9 138.9) Symmetry.cubic := by
  intro hFZ
  have h := hFZ opC7 opC7_mem
  have hlt : misorientation_angle_from_delta (toMat opC7 * from_euler 191.9 69.9 138.9) <
      misorientation_angle_from_delta (from_euler 191.9 69.9 138.9) :=
    misA_lt_of_trace_lt trace7_id trace7_range.1 trace7_range.2
  linarith

/-- Pinning of the fundamental-zone reduction of the Euler test
orientation to the operator `opC7`. -/
theorem m_eq7 : move_to_FZ (from_euler 191.9 69.9 138.9) Symmetry.cubic =
    toMat opC7 * from_euler 191.9 69.9 138.9 :=
  move_to_FZ_pin_real _ opC7 opC7_mem trace7_id trace7_others trace7_range.1 trace7_range.2

theorem atan2_neg_arccos {y x : ℝ} (hy : y < 0) (hxy : x ^ 2 + y ^ 2 = 1) :
    atan2 y x = -Real.arccos x := by
  unfold atan2
  rw [Complex.arg_of_im_neg (show (⟨x, y⟩ : ℂ).im < 0 from hy)]
  have h1 : x * x + y * y = (1:ℝ) := by nlinarith [hxy]
  have habs : Complex.abs ⟨x, y⟩ = 1 := by
    rw [Complex.abs_apply, Complex.normSq_mk, h1, Real.sqrt_one]
  rw [habs, div_one]

theorem atan2_pos_arccos {y x : ℝ} (hy : 0 < y) (hxy : x ^ 2 + y ^ 2 = 1) :
    atan2 y x = Real.arccos x := by
  unfold atan2
  rw [Complex.arg_of_im_pos (show 0 < (⟨x, y⟩ : ℂ).im from hy)]
  have h1 : x * x + y * y = (1:ℝ) := by nlinarith [hxy]
  have habs : Complex.abs ⟨x, y⟩ = 1 := by
    rw [Complex.abs_apply, Complex.normSq_mk, h1, Real.sqrt_one]
  rw [habs, div_one]

theorem le_arcsin_of_sin_le {a x : ℝ} (ha1 : -(π / 2) ≤ a) (ha2 : a ≤ π / 2)
    (hx : x ≤ 1) (h : Real.sin a ≤ x) : a ≤ Real.arcsin x := by
  have h1 : Real.arcsin (Real.sin a) = a := Real.arcsin_sin ha1 ha2
  rw [← h1]
  exact Real.strictMonoOn_arcsin.monotoneOn
    ⟨Real.neg_one_le_sin a, Real.sin_le_one a⟩
    ⟨(Real.neg_one_le_sin a).trans h, hx⟩ h

theorem arcsin_le_of_le_sin {b x : ℝ} (hb1 : -(π / 2) ≤ b) (hb2 : b ≤ π / 2)
    (hx : -1 ≤ x) (h : x ≤ Real.sin b) : Real.arcsin x ≤ b := by
  have h1 : Real.arcsin (Real.sin b) = b := Real.arcsin_sin hb1 hb2
  rw [← h1]
  exact Real.strictMonoOn_arcsin.monotoneOn
    ⟨hx, h.trans (Real.sin_le_one b)⟩
    ⟨Real.neg_one_le_sin b, Real.sin_le_one b⟩ h

/-- Entrywise form of the reduced test orientation `opC7 * g`. -/
theorem mFZ_eq : toMat opC7 * from_euler 191.9 69.9 138.9 =
    !![Real.cos (radians 11.9) * Real.cos (radians 41.1) + Real.sin (radians 11.9) * Real.sin (radians 41.1) * Real.sin (radians 20.1),
       Real.sin (radians 11.9) * Real.cos (radians 41.1) - Real.cos (radians 11.9) * Real.sin (radians 41.1) * Real.sin (radians 20.1),
       Real.sin (radians 41.1) * Real.cos (radians 20.1);
       -(Real.sin (radians 11.9) * Real.cos (radians 20.1)), Real.cos (radians 11.9) * Real.cos (radians 20.1), Real.sin (radians 20.1);
       -(Real.cos (radians 11.9) * Real.sin (radians 41.1) - Real.sin (radians 11.9) * Real.cos (radians 41.1) * Real.sin (radians 20.1)),
       -(Real.sin (radians 11.9) * Real.sin (radians 41.1) + Real.cos (radians 11.9) * Real.cos (radians 41.1) * Real.sin (radians 20.1)),
       Real.cos (radians 41.1) * Real.cos (radians 20.1)] := by
  rw [g_eq]
  ext i j
  fin_cases i <;> fin_cases j <;> simp [toMat, opC7] <;> ring

theorem row2_unit : (Real.cos (radians 11.9) * Real.sin (radians 41.1) - Real.sin (radians 11.9) * Real.cos (radians 41.1) * Real.sin (radians 20.1)) ^ 2 + (Real.sin (radians 11.9) * Real.sin (radians 41.1) + Real.cos (radians 11.9) * Real.cos (radians 41.1) * Real.sin (radians 20.1)) ^ 2 + (Real.cos (radians 41.1) * Real.cos (radians 20.1)) ^ 2 = 1 := by
  have hA := Real.sin_sq_add_cos_sq (radians 11.9)
  have hB := Real.sin_sq_add_cos_sq (radians 20.1)
  have hC := Real.sin_sq_add_cos_sq (radians 41.1)
  linear_combination (Real.sin (radians 41.1) ^ 2 + Real.cos (radians 41.1) ^ 2 * Real.sin (radians 20.1) ^ 2) * hA + Real.cos (radians 41.1) ^ 2 * hB + hC

theorem col2_unit : (Real.sin (radians 41.1) * Real.cos (radians 20.1)) ^ 2 + (Real.sin (radians 20.1)) ^ 2 + (Real.cos (radians 41.1) * Real.cos (radians 20.1)) ^ 2 = 1 := by
  have hB := Real.sin_sq_add_cos_sq (radians 20.1)
  have hC := Real.sin_sq_add_cos_sq (radians 41.1)
  linear_combination Real.cos (radians 20.1) ^ 2 * hC + hB

theorem m22_win : (0.7076670491:ℝ) ≤ Real.cos (radians 41.1) * Real.cos (radians 20.1) ∧ Real.cos (radians 41.1) * Real.cos (radians 20.1) ≤ 0.7076670701 := by
  obtain ⟨h1, h2⟩ := e12_bounds
  constructor <;> linarith

theorem hw_pos : (0:ℝ) < 1 - (Real.cos (radians 41.1) * Real.cos (radians 20.1)) ^ 2 := by
  obtain ⟨h1, h2⟩ := m22_win
  nlinarith

theorem sqw_win : (0.7065460479:ℝ) ≤ √(1 - (Real.cos (radians 41.1) * Real.cos (radians 20.1)) ^ 2) ∧ √(1 - (Real.cos (radians 41.1) * Real.cos (radians 20.1)) ^ 2) ≤ 0.706546069 := by
  obtain ⟨h1, h2⟩ := m22_win
  constructor
  · rw [show (0.7065460479:ℝ) = √(0.7065460479 ^ 2) from
      (Real.sqrt_sq (by norm_num)).symm]
    apply Real.sqrt_le_sqrt
    nlinarith
  · rw [show (0.706546069:ℝ) = √(0.706546069 ^ 2) from
      (Real.sqrt_sq (by norm_num)).symm]
    apply Real.sqrt_le_sqrt
    nlinarith

theorem x1_win : (0.5505053276:ℝ) ≤ (Real.sin (radians 11.9) * Real.sin (radians 41.1) + Real.cos (radians 11.9) * Real.cos (radians 41.1) * Real.sin (radians 20.1)) * (1 / √(1 - (Real.cos (radians 41.1) * Real.cos (radians 20.1)) ^ 2)) ∧ (Real.sin (radians 11.9) * Real.sin (radians 41.1) + Real.cos (radians 11.9) * Real.cos (radians 41.1) * Real.sin (radians 20.1)) * (1 / √(1 - (Real.cos (radians 41.1) * Real.cos (radians 20.1)) ^ 2)) ≤ 0.5505053612 := by
  obtain ⟨hw1, hw2⟩ := sqw_win
  have hWpos : (0:ℝ) < √(1 - (Real.cos (radians 41.1) * Real.cos (radians 20.1)) ^ 2) := lt_of_lt_of_le (by norm_num) hw1
  have hinv1 : (1:ℝ) / 0.706546069 ≤ 1 / √(1 - (Real.cos (radians 41.1) * Real.cos (radians 20.1)) ^ 2) := one_div_le_one_div_of_le hWpos hw2
  have hinv2 : (1:ℝ) / √(1 - (Real.cos (radians 41.1) * Real.cos (radians 20.1)) ^ 2) ≤ 1 / 0.7065460479 := one_div_le_one_div_of_le (by norm_num) hw1
  obtain ⟨hp1, hp2⟩ := mul_mem_of_mem e11_bounds.1 e11_bounds.2 hinv1 hinv2
    (by norm_num) (by norm_num)
  constructor
  · calc (0.5505053276:ℝ) ≤ 0.3889573752 * (1 / 0.706546069) := by norm_num
      _ ≤ _ := hp1
  · calc (Real.sin (radians 11.9) * Real.sin (radians 41.1) + Real.cos (radians 11.9) * Real.cos (radians 41.1) * Real.sin (radians 20.1)) * (1 / √(1 - (Real.cos (radians 41.1) * Real.cos (radians 20.1)) ^ 2)) ≤ 0.3889573873 * (1 / 0.7065460479) := hp2
      _ ≤ 0.5505053612 := by norm_num

theorem x2_win : (0.4863938950:ℝ) ≤ Real.sin (radians 20.1) * (1 / √(1 - (Real.cos (radians 41.1) * Real.cos (radians 20.1)) ^ 2)) ∧ Real.sin (radians 20.1) * (1 / √(1 - (Real.cos (radians 41.1) * Real.cos (radians 20.1)) ^ 2)) ≤ 0.4863939097 := by
  obtain ⟨hw1, hw2⟩ := sqw_win
  have hWpos : (0:ℝ) < √(1 - (Real.cos (radians 41.1) * Real.cos (radians 20.1)) ^ 2) := lt_of_lt_of_le (by norm_num) hw1
  have hinv1 : (1:ℝ) / 0.706546069 ≤ 1 / √(1 - (Real.cos (radians 41.1) * Real.cos (radians 20.1)) ^ 2) := one_div_le_one_div_of_le hWpos hw2
  have hinv2 : (1:ℝ) / √(1 - (Real.cos (radians 41.1) * Real.cos (radians 20.1)) ^ 2) ≤ 1 / 0.7065460479 := one_div_le_one_div_of_le (by norm_num) hw1
  obtain ⟨hp1, hp2⟩ := mul_mem_of_mem sinB_lb sinB_ub hinv1 hinv2
    (by norm_num) (by norm_num)
  constructor
  · calc (0.4863938950:ℝ) ≤ 0.3436596945 * (1 / 0.706546069) := by norm_num
      _ ≤ _ := hp1
  · calc Real.sin (radians 20.1) * (1 / √(1 - (Real.cos (radians 41.1) * Real.cos (radians 20.1)) ^ 2)) ≤ 0.3436596946 * (1 / 0.7065460479) := hp2
      _ ≤ 0.4863939097 := by norm_num

theorem asin1_win : (0.5829694202:ℝ) ≤ Real.arcsin ((Real.sin (radians 11.9) * Real.sin (radians 41.1) + Real.cos (radians 11.9) * Real.cos (radians 41.1) * Real.sin (radians 20.1)) * (1 / √(1 - (Real.cos (radians 41.1) * Real.cos (radians 20.1)) ^ 2))) ∧
    Real.arcsin ((Real.sin (radians 11.9) * Real.sin (radians 41.1) + Real.cos (radians 11.9) * Real.cos (radians 41.1) * Real.sin (radians 20.1)) * (1 / √(1 - (Real.cos (radians 41.1) * Real.cos (radians 20.1)) ^ 2))) ≤ 0.5829694638 := by
  obtain ⟨hx1, hx2⟩ := x1_win
  constructor
  · apply le_arcsin_of_sin_le
    · linarith [Real.pi_gt_d6]
    · linarith [Real.pi_gt_d6]
    · linarith
    ·
      have ht := sin_taylor10 0.5829694202 (by rw [abs_of_pos] <;> norm_num)
      rw [abs_of_pos (by norm_num : (0:ℝ) < 0.5829694202)] at ht
      rcases abs_le.1 ht with ⟨_, hhi⟩
      norm_num at hhi
      linarith
  · apply arcsin_le_of_le_sin
    · linarith [Real.pi_gt_d6]
    · linarith [Real.pi_gt_d6]
    · linarith
    ·
      have ht := sin_taylor10 0.5829694638 (by rw [abs_of_pos] <;> norm_num)
      rw [abs_of_pos (by norm_num : (0:ℝ) < 0.5829694638)] at ht
      rcases abs_le.1 ht with ⟨hlo, _⟩
      norm_num at hlo
      linarith

theorem asin2_win : (0.5079577809:ℝ) ≤ Real.arcsin (Real.sin (radians 20.1) * (1 / √(1 - (Real.cos (radians 41.1) * Real.cos (radians 20.1)) ^ 2))) ∧
    Real.arcsin (Real.sin (radians 20.1) * (1 / √(1 - (Real.cos (radians 41.1) * Real.cos (radians 20.1)) ^ 2))) ≤ 0.5079577986 := by
  obtain ⟨hx1, hx2⟩ := x2_win
  constructor
  · apply le_arcsin_of_sin_le
    · linarith [Real.pi_gt_d6]
    · linarith [Real.pi_gt_d6]
    · linarith
    ·
      have ht := sin_taylor10 0.5079577809 (by rw [abs_of_pos] <;> norm_num)
      rw [abs_of_pos (by norm_num : (0:ℝ) < 0.5079577809)] at ht
      rcases abs_le.1 ht with ⟨_, hhi⟩
      norm_num at hhi
      linarith
  · apply arcsin_le_of_le_sin
    · linarith [Real.pi_gt_d6]
    · linarith [Real.pi_gt_d6]
    · linarith
    ·
      have ht := sin_taylor10 0.5079577986 (by rw [abs_of_pos] <;> norm_num)
      rw [abs_of_pos (by norm_num : (0:ℝ) < 0.5079577986)] at ht
      rcases abs_le.1 ht with ⟨hlo, _⟩
      norm_num at hlo
      linarith

theorem asinP_win : (0.7861907749:ℝ) ≤ Real.arcsin (Real.cos (radians 41.1) * Real.cos (radians 20.1)) ∧
    Real.arcsin (Real.cos (radians 41.1) * Real.cos (radians 20.1)) ≤ 0.7861908821 := by
  obtain ⟨hx1, hx2⟩ := m22_win
  constructor
  · apply le_arcsin_of_sin_le
    · linarith [Real.pi_gt_d6]
    · linarith [Real.pi_gt_d6]
    · linarith
    ·
      have ht := sin_taylor10 0.7861907749 (by rw [abs_of_pos] <;> norm_num)
      rw [abs_of_pos (by norm_num : (0:ℝ) < 0.7861907749)] at ht
      rcases abs_le.1 ht with ⟨_, hhi⟩
      norm_num at hhi
      linarith
  · apply arcsin_le_of_le_sin
    · linarith [Real.pi_gt_d6]
    · linarith [Real.pi_gt_d6]
    · linarith
    ·
      have ht := sin_taylor10 0.7861908821 (by rw [abs_of_pos] <;> norm_num)
      rw [abs_of_pos (by norm_num : (0:ℝ) < 0.7861908821)] at ht
      rcases abs_le.1 ht with ⟨hlo, _⟩
      norm_num at hlo
      linarith

set_option maxHeartbeats 4000000 in
/-- Window certification of the three extracted Euler angles of the
fundamental-zone reduction of Euler (191.9, 69.9, 138.9). -/
theorem euler7_window :
    |(OrientationMatrix2Euler (move_to_FZ (from_euler 191.9 69.9 138.9)
        Symmetry.cubic)).1 - 303.402| < 0.0005 ∧
      |(OrientationMatrix2Euler (move_to_FZ (from_euler 191.9 69.9 138.9)
          Symmetry.cubic)).2.1 - 44.955| < 0.0005 ∧
      |(OrientationMatrix2Euler (move_to_FZ (from_euler 191.9 69.9 138.9)
          Symmetry.cubic)).2.2 - 60.896| < 0.0005 := by
  have hpi := Real.pi_pos
  have hWpos : (0:ℝ) < √(1 - (Real.cos (radians 41.1) * Real.cos (radians 20.1)) ^ 2) := lt_of_lt_of_le (by norm_num) sqw_win.1
  have hW2 : (√(1 - (Real.cos (radians 41.1) * Real.cos (radians 20.1)) ^ 2)) ^ 2 = 1 - (Real.cos (radians 41.1) * Real.cos (radians 20.1)) ^ 2 := Real.sq_sqrt hw_pos.le
  have hcond : |(!![Real.cos (radians 11.9) * Real.cos (radians 41.1) + Real.sin (radians 11.9) * Real.sin (radians 41.1) * Real.sin (radians 20.1),
       Real.sin (radians 11.9) * Real.cos (radians 41.1) - Real.cos (radians 11.9) * Real.sin (radians 41.1) * Real.sin (radians 20.1),
       Real.sin (radians 41.1) * Real.cos (radians 20.1);
       -(Real.sin (radians 11.9) * Real.cos (radians 20.1)), Real.cos (radians 11.9) * Real.cos (radians 20.1), Real.sin (radians 20.1);
       -(Real.cos (radians 11.9) * Real.sin (radians 41.1) - Real.sin (radians 11.9) * Real.cos (radians 41.1) * Real.sin (radians 20.1)),
       -(Real.sin (radians 11.9) * Real.sin (radians 41.1) + Real.cos (radians 11.9) * Real.cos (radians 41.1) * Real.sin (radians 20.1)),
       Real.cos (radians 41.1) * Real.cos (radians 20.1)]) 2 2| < 1 := by
    show |Real.cos (radians 41.1) * Real.cos (radians 20.1)| < 1
    rw [abs_of_pos (by linarith [m22_win.1] : (0:ℝ) < Real.cos (radians 41.1) * Real.cos (radians 20.1))]
    linarith [m22_win.2]
  have hcomp : OrientationMatrix2Euler (!![Real.cos (radians 11.9) * Real.cos (radians 41.1) + Real.sin (radians 11.9) * Real.sin (radians 41.1) * Real.sin (radians 20.1),
       Real.sin (radians 11.9) * Real.cos (radians 41.1) - Real.cos (radians 11.9) * Real.sin (radians 41.1) * Real.sin (radians 20.1),
       Real.sin (radians 41.1) * Real.cos (radians 20.1);
       -(Real.sin (radians 11.9) * Real.cos (radians 20.1)), Real.cos (radians 11.9) * Real.cos (radians 20.1), Real.sin (radians 20.1);
       -(Real.cos (radians 11.9) * Real.sin (radians 41.1) - Real.sin (radians 11.9) * Real.cos (radians 41.1) * Real.sin (radians 20.1)),
       -(Real.sin (radians 11.9) * Real.sin (radians 41.1) + Real.cos (radians 11.9) * Real.cos (radians 41.1) * Real.sin (radians 20.1)),
       Real.cos (radians 41.1) * Real.cos (radians 20.1)]) =
      (mod360 (degrees (atan2 (-(Real.cos (radians 11.9) * Real.sin (radians 41.1) - Real.sin (radians 11.9) * Real.cos (radians 41.1) * Real.sin (radians 20.1)) * (1 / √(1 - (Real.cos (radians 41.1) * Real.cos (radians 20.1)) ^ 2))) (-(-(Real.sin (radians 11.9) * Real.sin (radians 41.1) + Real.cos (radians 11.9) * Real.cos (radians 41.1) * Real.sin (radians 20.1))) * (1 / √(1 - (Real.cos (radians 41.1) * Real.cos (radians 20.1)) ^ 2))))),
       degrees (Real.arccos (Real.cos (radians 41.1) * Real.cos (radians 20.1))),
       mod360 (degrees (atan2 (Real.sin (radians 41.1) * Real.cos (radians 20.1) * (1 / √(1 - (Real.cos (radians 41.1) * Real.cos (radians 20.1)) ^ 2))) (Real.sin (radians 20.1) * (1 / √(1 - (Real.cos (radians 41.1) * Real.cos (radians 20.1)) ^ 2)))))) := by
    unfold OrientationMatrix2Euler
    rw [if_pos hcond]
    rfl
  rw [m_eq7, mFZ_eq, hcomp]
  refine ⟨?_, ?_, ?_⟩
  · show |mod360 (degrees (atan2 (-(Real.cos (radians 11.9) * Real.sin (radians 41.1) - Real.sin (radians 11.9) * Real.cos (radians 41.1) * Real.sin (radians 20.1)) * (1 / √(1 - (Real.cos (radians 41.1) * Real.cos (radians 20.1)) ^ 2))) (-(-(Real.sin (radians 11.9) * Real.sin (radians 41.1) + Real.cos (radians 11.9) * Real.cos (radians 41.1) * Real.sin (radians 20.1))) * (1 / √(1 - (Real.cos (radians 41.1) * Real.cos (radians 20.1)) ^ 2))))) - 303.402| < 0.0005
    rw [neg_neg]
    have hy : -(Real.cos (radians 11.9) * Real.sin (radians 41.1) - Real.sin (radians 11.9) * Real.cos (radians 41.1) * Real.sin (radians 20.1)) * (1 / √(1 - (Real.cos (radians 41.1) * Real.cos (radians 20.1)) ^ 2)) < 0 := by
      have h10 := e10_bounds.1
      have hinv : (0:ℝ) < 1 / √(1 - (Real.cos (radians 41.1) * Real.cos (radians 20.1)) ^ 2) := by positivity
      nlinarith
    have hxy : ((Real.sin (radians 11.9) * Real.sin (radians 41.1) + Real.cos (radians 11.9) * Real.cos (radians 41.1) * Real.sin (radians 20.1)) * (1 / √(1 - (Real.cos (radians 41.1) * Real.cos (radians 20.1)) ^ 2))) ^ 2 + (-(Real.cos (radians 11.9) * Real.sin (radians 41.1) - Real.sin (radians 11.9) * Real.cos (radians 41.1) * Real.sin (radians 20.1)) * (1 / √(1 - (Real.cos (radians 41.1) * Real.cos (radians 20.1)) ^ 2))) ^ 2 = 1 := by
      field_simp
      first
      | linear_combination row2_unit - hW2
      | linear_combination hW2 - row2_unit
      | linear_combination row2_unit + hW2
      | linear_combination (1 - (Real.cos (radians 41.1) * Real.cos (radians 20.1)) ^ 2) * row2_unit - hW2
      | linear_combination (√(1 - (Real.cos (radians 41.1) * Real.cos (radians 20.1)) ^ 2)) ^ 2 * row2_unit
      | linear_combination row2_unit
    rw [atan2_neg_arccos hy hxy, Real.arccos_eq_pi_div_two_sub_arcsin]
    obtain ⟨ha1, ha2⟩ := asin1_win
    have hdeq : degrees (-(π / 2 - Real.arcsin ((Real.sin (radians 11.9) * Real.sin (radians 41.1) + Real.cos (radians 11.9) * Real.cos (radians 41.1) * Real.sin (radians 20.1)) * (1 / √(1 - (Real.cos (radians 41.1) * Real.cos (radians 20.1)) ^ 2))))) =
        Real.arcsin ((Real.sin (radians 11.9) * Real.sin (radians 41.1) + Real.cos (radians 11.9) * Real.cos (radians 41.1) * Real.sin (radians 20.1)) * (1 / √(1 - (Real.cos (radians 41.1) * Real.cos (radians 20.1)) ^ 2))) * 180 / π - 90 := by
      unfold degrees
      field_simp
      ring
    rw [hdeq]
    have hdub : Real.arcsin ((Real.sin (radians 11.9) * Real.sin (radians 41.1) + Real.cos (radians 11.9) * Real.cos (radians 41.1) * Real.sin (radians 20.1)) * (1 / √(1 - (Real.cos (radians 41.1) * Real.cos (radians 20.1)) ^ 2))) * 180 / π < 33.4025 := by
      rw [div_lt_iff hpi]
      linarith [Real.pi_gt_d20]
    have hdlb : (33.4015:ℝ) < Real.arcsin ((Real.sin (radians 11.9) * Real.sin (radians 41.1) + Real.cos (radians 11.9) * Real.cos (radians 41.1) * Real.sin (radians 20.1)) * (1 / √(1 - (Real.cos (radians 41.1) * Real.cos (radians 20.1)) ^ 2))) * 180 / π := by
      rw [lt_div_iff hpi]
      linarith [Real.pi_lt_d20]
    have hr1 : (-360:ℝ) ≤ Real.arcsin ((Real.sin (radians 11.9) * Real.sin (radians 41.1) + Real.cos (radians 11.9) * Real.cos (radians 41.1) * Real.sin (radians 20.1)) * (1 / √(1 - (Real.cos (radians 41.1) * Real.cos (radians 20.1)) ^ 2))) * 180 / π - 90 := by linarith
    have hr2 : Real.arcsin ((Real.sin (radians 11.9) * Real.sin (radians 41.1) + Real.cos (radians 11.9) * Real.cos (radians 41.1) * Real.sin (radians 20.1)) * (1 / √(1 - (Real.cos (radians 41.1) * Real.cos (radians 20.1)) ^ 2))) * 180 / π - 90 < 0 := by linarith
    rw [mod360_of_neg_range hr1 hr2]
    rw [abs_lt]
    constructor <;> linarith
  · show |degrees (Real.arccos (Real.cos (radians 41.1) * Real.cos (radians 20.1))) - 44.955| < 0.0005
    rw [Real.arccos_eq_pi_div_two_sub_arcsin]
    obtain ⟨hP1, hP2⟩ := asinP_win
    have hdeq : degrees (π / 2 - Real.arcsin (Real.cos (radians 41.1) * Real.cos (radians 20.1))) =
        90 - Real.arcsin (Real.cos (radians 41.1) * Real.cos (radians 20.1)) * 180 / π := by
      unfold degrees
      field_simp
      ring
    rw [hdeq]
    have hdub : Real.arcsin (Real.cos (radians 41.1) * Real.cos (radians 20.1)) * 180 / π < 45.0455 := by
      rw [div_lt_iff hpi]
      linarith [Real.pi_gt_d20]
    have hdlb : (45.0445:ℝ) < Real.arcsin (Real.cos (radians 41.1) * Real.cos (radians 20.1)) * 180 / π := by
      rw [lt_div_iff hpi]
      linarith [Real.pi_lt_d20]
    rw [abs_lt]
    constructor <;> linarith
  · show |mod360 (degrees (atan2 (Real.sin (radians 41.1) * Real.cos (radians 20.1) * (1 / √(1 - (Real.cos (radians 41.1) * Real.cos (radians 20.1)) ^ 2))) (Real.sin (radians 20.1) * (1 / √(1 - (Real.cos (radians 41.1) * Real.cos (radians 20.1)) ^ 2))))) - 60.896| < 0.0005
    have hy2 : 0 < Real.sin (radians 41.1) * Real.cos (radians 20.1) * (1 / √(1 - (Real.cos (radians 41.1) * Real.cos (radians 20.1)) ^ 2)) := by
      have h02 := e02_bounds.1
      have hinv : (0:ℝ) < 1 / √(1 - (Real.cos (radians 41.1) * Real.cos (radians 20.1)) ^ 2) := by positivity
      nlinarith
    have hxy2 : (Real.sin (radians 20.1) * (1 / √(1 - (Real.cos (radians 41.1) * Real.cos (radians 20.1)) ^ 2))) ^ 2 + (Real.sin (radians 41.1) * Real.cos (radians 20.1) * (1 / √(1 - (Real.cos (radians 41.1) * Real.cos (radians 20.1)) ^ 2))) ^ 2 = 1 := by
      field_simp
      first
      | linear_combination col2_unit - hW2
      | linear_combination hW2 - col2_unit
      | linear_combination col2_unit + hW2
      | linear_combination (1 - (Real.cos (radians 41.1) * Real.cos (radians 20.1)) ^ 2) * col2_unit - hW2
      | linear_combination (√(1 - (Real.cos (radians 41.1) * Real.cos (radians 20.1)) ^ 2)) ^ 2 * col2_unit
      | linear_combination col2_unit
    rw [atan2_pos_arccos hy2 hxy2, Real.arccos_eq_pi_div_two_sub_arcsin]
    obtain ⟨hb1, hb2⟩ := asin2_win
    have hdeq : degrees (π / 2 - Real.arcsin (Real.sin (radians 20.1) * (1 / √(1 - (Real.cos (radians 41.1) * Real.cos (radians 20.1)) ^ 2)))) =
        90 - Real.arcsin (Real.sin (radians 20.1) * (1 / √(1 - (Real.cos (radians 41.1) * Real.cos (radians 20.1)) ^ 2))) * 180 / π := by
      unfold degrees
      field_simp
      ring
    rw [hdeq]
    have hdub : Real.arcsin (Real.sin (radians 20.1) * (1 / √(1 - (Real.cos (radians 41.1) * Real.cos (radians 20.1)) ^ 2))) * 180 / π < 29.1045 := by
      rw [div_lt_iff hpi]
      linarith [Real.pi_gt_d20]
    have hdlb : (29.1035:ℝ) < Real.arcsin (Real.sin (radians 20.1) * (1 / √(1 - (Real.cos (radians 41.1) * Real.cos (radians 20.1)) ^ 2))) * 180 / π := by
      rw [lt_div_iff hpi]
      linarith [Real.pi_lt_d20]
    have hr1 : (0:ℝ) ≤ 90 - Real.arcsin (Real.sin (radians 20.1) * (1 / √(1 - (Real.cos (radians 41.1) * Real.cos (radians 20.1)) ^ 2))) * 180 / π := by linarith
    have hr2 : 90 - Real.arcsin (Real.sin (radians 20.1) * (1 / √(1 - (Real.cos (radians 41.1) * Real.cos (radians 20.1)) ^ 2))) * 180 / π < 360 := by linarith
    rw [mod360_of_range hr1 hr2]
    rw [abs_lt]
    constructor <;> linarith

/-- claim C7: the orientation built from Rodrigues vector
(0.1449, -0.0281, 0.0616) is inside the cubic fundamental zone; the
orientation built from Euler angles (191.9, 69.9, 138.9) is not; and the
fundamental-zone reduction of the latter has Euler angles within 0.0005
degrees of (303.402, 44.955, 60.896). -/
theorem claim_C7_fundamental_zone :
    inFZ (from_rodrigues 0.1449 (-0.0281) 0.0616) Symmetry.cubic ∧
      ¬ inFZ (from_euler 191.9 69.9 138.9) Symmetry.cubic ∧
      |(OrientationMatrix2Euler (move_to_FZ (from_euler 191.9 69.9 138.9)
          Symmetry.cubic)).1 - 303.402| < 0.0005 ∧
      |(OrientationMatrix2Euler (move_to_FZ (from_euler 191.9 69.9 138.9)
          Symmetry.cubic)).2.1 - 44.955| < 0.0005 ∧
      |(OrientationMatrix2Euler (move_to_FZ (from_euler 191.9 69.9 138.9)
          Symmetry.cubic)).2.2 - 60.896| < 0.0005 :=
  ⟨rod_inFZ, g7_not_inFZ, euler7_window.1, euler7_window.2.1, euler7_window.2.2⟩

set_option maxRecDepth 1000000 in
theorem pairs_bound_AB : ∀ p ∈ List.product cubicOps cubicOps,
    ((p.1.mul tA).mul ((p.2.mul tB).tr)).tra ≤ 99216 := by decide

set_option maxRecDepth 100000 in
theorem plain_delta_AB : (tA.mul tB.tr).tra = 51463 := by decide

set_option maxRecDepth 100000 in
theorem best_pair_AB : ((T3.one.mul tA).mul ((op4.mul tB).tr)).tra = 99216 := by decide

/-- The misorientation angle of the best operator pair for the
counterexample matrices. -/
theorem op4_delta_angle :
    misorientation_angle_from_delta ((toMat T3.one * gA8) * (toMat op4 * gB8)ᵀ) =
      Real.arccos (1147 / 1450) := by
  have hbest : ((toMat T3.one * gA8) * (toMat op4 * gB8)ᵀ).trace =
      ((725:ℝ)⁻¹ * (53:ℝ)⁻¹) * 99216 := by
    unfold gA8 gB8
    rw [smul_pair_delta, trace_smul_toMat, best_pair_AB]
    push_cast
    ring
  unfold misorientation_angle_from_delta
  rw [hbest]
  have harg : (((725:ℝ)⁻¹ * (53:ℝ)⁻¹) * 99216 - 1) / 2 = 1147 / 1450 := by norm_num
  rw [harg, clip_of_mem (by norm_num) (by norm_num)]

set_option maxRecDepth 1000000 in
/-- Exact value of the disorientation of the counterexample pair. -/
theorem disAB_value :
    (disorientation gA8 gB8 Symmetry.cubic).1 = Real.arccos (1147 / 1450) := by
  obtain ⟨⟨d, hdmem, hdis⟩, hlow⟩ := disorientation_min gA8 gB8 Symmetry.cubic
  have hfst : (disorientation gA8 gB8 Symmetry.cubic).1 =
      misorientation_angle_from_delta d := by rw [hdis]
  apply le_antisymm
  · have hpm : (T3.one, op4) ∈ List.product Symmetry.cubic.symmetry_operators
        Symmetry.cubic.symmetry_operators := by decide
    have hle := hlow _ (mem_deltasOf hpm gA8 gB8)
    rwa [op4_delta_angle] at hle
  · rw [hfst]
    unfold deltasOf at hdmem
    rcases List.mem_map.1 hdmem with ⟨p, hp, rfl⟩
    rw [← op4_delta_angle]
    apply misA_le_of_trace_le
    unfold gA8 gB8
    rw [smul_pair_delta, trace_smul_toMat, smul_pair_delta, trace_smul_toMat, best_pair_AB]
    have hb : ((p.1.mul tA).mul ((p.2.mul tB).tr)).tra ≤ 99216 := pairs_bound_AB p hp
    have hb' : (((p.1.mul tA).mul ((p.2.mul tB).tr)).tra : ℝ) ≤ ((99216 : ℤ) : ℝ) := by
      exact_mod_cast hb
    exact mul_le_mul_of_nonneg_left hb' (by norm_num)

/-- Exact value of the fundamental-zone delta angle of the counterexample
pair: the reduction keeps both matrices, and their plain delta has trace
51463/38425. -/
theorem fzAB_angle :
    misorientation_angle_from_delta
        (move_to_FZ gA8 Symmetry.cubic * (move_to_FZ gB8 Symmetry.cubic)ᵀ) =
      Real.arccos (123 / 725) := by
  have hA : move_to_FZ gA8 Symmetry.cubic = gA8 :=
    move_to_FZ_id tA _ (by norm_num) gA8_FZ_traces
  have hB : move_to_FZ gB8 Symmetry.cubic = gB8 :=
    move_to_FZ_id tB _ (by norm_num) gB8_FZ_traces
  rw [hA, hB]
  have hd0 : (gA8 * gB8ᵀ).trace = (725:ℝ)⁻¹ * ((53:ℝ)⁻¹ * 51463) := by
    unfold gA8 gB8
    rw [Matrix.transpose_smul, Matrix.mul_smul, Matrix.smul_mul, smul_smul,
      ← toMat_tr, ← toMat_mul, trace_smul_toMat, plain_delta_AB]
    push_cast
    ring
  unfold misorientation_angle_from_delta
  rw [hd0]
  have harg : ((725:ℝ)⁻¹ * ((53:ℝ)⁻¹ * 51463) - 1) / 2 = 123 / 725 := by norm_num
  rw [harg, clip_of_mem (by norm_num) (by norm_num)]

theorem asinAB1_win : (0.1704797586:ℝ) ≤ Real.arcsin (123 / 725) ∧
    Real.arcsin (123 / 725) ≤ 0.1704797587 := by
  constructor
  · apply le_arcsin_of_sin_le
    · linarith [Real.pi_gt_d6]
    · linarith [Real.pi_gt_d6]
    · norm_num
    · have ht := sin_taylor10 0.1704797586 (by rw [abs_of_pos] <;> norm_num)
      rw [abs_of_pos (by norm_num : (0:ℝ) < 0.1704797586)] at ht
      rcases abs_le.1 ht with ⟨_, hhi⟩
      norm_num at hhi ⊢
      linarith
  · apply arcsin_le_of_le_sin
    · linarith [Real.pi_gt_d6]
    · linarith [Real.pi_gt_d6]
    · norm_num
    · have ht := sin_taylor10 0.1704797587 (by rw [abs_of_pos] <;> norm_num)
      rw [abs_of_pos (by norm_num : (0:ℝ) < 0.1704797587)] at ht
      rcases abs_le.1 ht with ⟨hlo, _⟩
      norm_num at hlo ⊢
      linarith

theorem asinAB2_win : (0.9124979029:ℝ) ≤ Real.arcsin (1147 / 1450) ∧
    Real.arcsin (1147 / 1450) ≤ 0.9124982996 := by
  constructor
  · apply le_arcsin_of_sin_le
    · linarith [Real.pi_gt_d6]
    · linarith [Real.pi_gt_d6]
    · norm_num
    · have ht := sin_taylor10 0.9124979029 (by rw [abs_of_pos] <;> norm_num)
      rw [abs_of_pos (by norm_num : (0:ℝ) < 0.9124979029)] at ht
      rcases abs_le.1 ht with ⟨_, hhi⟩
      norm_num at hhi ⊢
      linarith
  · apply arcsin_le_of_le_sin
    · linarith [Real.pi_gt_d6]
    · linarith [Real.pi_gt_d6]
    · norm_num
    · have ht := sin_taylor10 0.9124982996 (by rw [abs_of_pos] <;> norm_num)
      rw [abs_of_pos (by norm_num : (0:ℝ) < 0.9124982996)] at ht
      rcases abs_le.1 ht with ⟨hlo, _⟩
      norm_num at hlo ⊢
      linarith

/-- claim C8 (amended): moving both orientations into the cubic fundamental
zone does not, in general, preserve the disorientation angle.  What does
hold: the disorientation angle is always at most the misorientation angle
of the fundamental-zone delta, but the two can differ — for the
counterexample pair (two rational rotation matrices that the reduction
keeps unchanged) the zone-delta angle is within 0.005 of 80.232 degrees
while the disorientation is within 0.005 of 37.718 degrees; in the
concrete pair of `test_small_disorientation` the two quantities agree —
both the disorientation angle of the two test matrices and the
misorientation angle of their fundamental-zone delta are within 0.005 of
7.24 degrees. -/
theorem claim_C8_amended :
    (∀ g1 g2 : Matrix (Fin 3) (Fin 3) ℝ,
        (disorientation g1 g2 Symmetry.cubic).1 ≤
          misorientation_angle_from_delta
            (move_to_FZ g1 Symmetry.cubic * (move_to_FZ g2 Symmetry.cubic)ᵀ)) ∧
      |(disorientation gRef g12 Symmetry.cubic).1 * (180 / π) - 7.24| < 0.005 ∧
      |misorientation_angle_from_delta
            (move_to_FZ gRef Symmetry.cubic * (move_to_FZ g12 Symmetry.cubic)ᵀ) *
          (180 / π) - 7.24| < 0.005 ∧
      |misorientation_angle_from_delta
            (move_to_FZ gA8 Symmetry.cubic * (move_to_FZ gB8 Symmetry.cubic)ᵀ) *
          (180 / π) - 80.232| < 0.005 ∧
      |(disorientation gA8 gB8 Symmetry.cubic).1 * (180 / π) - 37.718| < 0.005 := by
  have hpi := Real.pi_pos
  refine ⟨dis_le_FZ_delta, ?_, ?_, ?_, ?_⟩
  · rw [dis_value]
    exact arccos_cwR_deg_near
  · rw [fz_delta_angle]
    exact arccos_cwR_deg_near
  · rw [fzAB_angle, Real.arccos_eq_pi_div_two_sub_arcsin]
    obtain ⟨h1, h2⟩ := asinAB1_win
    have hdeq : (π / 2 - Real.arcsin (123 / 725)) * (180 / π) =
        90 - Real.arcsin (123 / 725) * 180 / π := by
      field_simp
      ring
    rw [hdeq]
    have hdub : Real.arcsin ((123:ℝ) / 725) * 180 / π < 9.773 := by
      rw [div_lt_iff hpi]
      linarith [Real.pi_gt_d20]
    have hdlb : (9.763:ℝ) < Real.arcsin ((123:ℝ) / 725) * 180 / π := by
      rw [lt_div_iff hpi]
      linarith [Real.pi_lt_d20]
    rw [abs_lt]
    constructor <;> linarith
  · rw [disAB_value, Real.arccos_eq_pi_div_two_sub_arcsin]
    obtain ⟨h1, h2⟩ := asinAB2_win
    have hdeq : (π / 2 - Real.arcsin (1147 / 1450)) * (180 / π) =
        90 - Real.arcsin (1147 / 1450) * 180 / π := by
      field_simp
      ring
    rw [hdeq]
    have hdub : Real.arcsin ((1147:ℝ) / 1450) * 180 / π < 52.287 := by
      rw [div_lt_iff hpi]
      linarith [Real.pi_gt_d20]
    have hdlb : (52.277:ℝ) < Real.arcsin ((1147:ℝ) / 1450) * 180 / π := by
      rw [lt_div_iff hpi]
      linarith [Real.pi_lt_d20]
    rw [abs_lt]
    constructor <;> linarith
